import Mathlib

/-!
Verification development for the TechniSync DNS reconciliation daemon.

The definitions below are a shallow embedding of the Python sources:
  technisync/models.py      (DNSRecord, zone predicates, reverse-zone derivation)
  technisync/db_manager.py  (SQLite mirror store: dns_records, zone_ownership, zone_sync)
  technisync/sync_manager.py (SyncManager: ingest, propagation, DHCP scopes, tracker)

Modelling conventions:
  * Python dicts are association lists kept in insertion order; `dinsert`
    replaces the value in place for an existing key (Python dict assignment)
    and appends otherwise; `mkDict` models a dict comprehension (last value
    for a duplicated key wins, position of the first occurrence is kept).
  * `rdata` (a Python dict str -> str) is `List (String, String)`; dict
    equality is equality of the canonical (key-sorted, last-binding) form.
  * `json.dumps(d, sort_keys=True)` is `jsonSorted` (keys sorted, Python
    separators; only backslash and quote are escaped - json.dumps also
    escapes control and non-ASCII characters, which no claim depends on).
  * Machine timestamps (created_at / updated_at) are not modelled; the
    zone_sync.last_synced column is kept as a Nat supplied by the caller.
  * Upstream HTTP responses are oracle arguments; the calls the engine
    issues are returned as an explicit `ClientOp` trace in issue order.
  * The success path is modelled (no I/O exceptions): every claim below is
    about what the code writes or issues, and a Python-side exception only
    truncates the trace.
-/

namespace TechniSync

/-! ### Association lists with Python-dict semantics -/

def alookup {α β : Type} [DecidableEq α] : List (α × β) → α → Option β
  | [], _ => none
  | p :: rest, k => if p.1 = k then some p.2 else alookup rest k

/-- Python `k in d`. -/
def rdMember {α β : Type} [DecidableEq α] (l : List (α × β)) (k : α) : Bool :=
  (alookup l k).isSome

/-- Python `d[k] = v`: replace the binding in place when the key exists
(keys are unique in a dict, so replacing the first binding is the same),
append otherwise. -/
def dinsert {α β : Type} [DecidableEq α] : List (α × β) → α → β → List (α × β)
  | [], k, v => [(k, v)]
  | p :: rest, k, v => if p.1 = k then (k, v) :: rest else p :: dinsert rest k v

/-- Python dict comprehension over a list of (key, value) pairs. -/
def mkDict {α β : Type} [DecidableEq α] (l : List (α × β)) : List (α × β) :=
  l.foldl (fun d p => dinsert d p.1 p.2) []

/-! ### Character-level string helpers

Lean's built-in `String.splitOn`, `endsWith`, `toNat?`, `front` and
`dropRight` are implemented over byte positions and do not reduce inside the
kernel, so the Python string operations are modelled over `String.data`
directly (same semantics for the inputs at hand). -/

/-- `s.split(c)` for a one-character separator. -/
def chSplit (c : Char) : List Char → List (List Char)
  | [] => [[]]
  | x :: xs =>
    if x = c then [] :: chSplit c xs
    else
      match chSplit c xs with
      | [] => [[x]]
      | h :: t => (x :: h) :: t

def strSplitChar (s : String) (c : Char) : List String := (chSplit c s.data).map String.mk

/-- `s.split("::")` (the one two-character separator the code uses). -/
def dcSplit : List Char → List (List Char)
  | [] => [[]]
  | ':' :: ':' :: rest => [] :: dcSplit rest
  | x :: rest =>
    match dcSplit rest with
    | [] => [[x]]
    | h :: t => (x :: h) :: t

def strSplitDoubleColon (s : String) : List String := (dcSplit s.data).map String.mk

def strEndsWith (s t : String) : Bool := t.data.isSuffixOf s.data

def strDropRight (s : String) (n : Nat) : String := String.mk (s.data.take (s.data.length - n))

def digitVal? (c : Char) : Option Nat :=
  if '0' ≤ c ∧ c ≤ '9' then some (c.toNat - '0'.toNat) else none

/-- Decimal value of a digit string (`none` on a non-digit). -/
def digitsToNat (l : List Char) : Option Nat :=
  l.foldl (fun acc c =>
    match acc, digitVal? c with
    | some v, some d => some (v * 10 + d)
    | _, _ => none) (some 0)

/-! ### rdata dictionaries and their JSON serialization -/

abbrev Rdata := List (String × String)

/-- Lexicographic comparison on code points (Python `str <`). -/
def chListLt : List Char → List Char → Bool
  | [], [] => false
  | [], _ :: _ => true
  | _ :: _, [] => false
  | a :: as, b :: bs => if a < b then true else if b < a then false else chListLt as bs

def strLt (a b : String) : Bool := chListLt a.data b.data

def insertSorted (p : String × String) : List (String × String) → List (String × String)
  | [] => [p]
  | q :: rest => if strLt p.1 q.1 then p :: q :: rest else q :: insertSorted p rest

def sortByKey (l : List (String × String)) : List (String × String) :=
  l.foldr insertSorted []

/-- Canonical form of a Python str->str dict: unique keys (last binding wins),
sorted by key.  Two dicts are `==` in Python iff their canonical forms agree. -/
def canonRdata (d : Rdata) : Rdata := sortByKey (mkDict d)

def jsonEscape (s : String) : String :=
  s.data.foldl (fun acc c =>
    acc ++ (if c = '\\' then "\\\\" else if c = '\"' then "\\\"" else String.singleton c)) ""

def jsonStr (s : String) : String := "\"" ++ jsonEscape s ++ "\""

def jsonObj (l : Rdata) : String :=
  "\x7b" ++ String.intercalate ", " (l.map (fun p => jsonStr p.1 ++ ": " ++ jsonStr p.2)) ++ "\x7d"

/-- `json.dumps(rdata, sort_keys=True)` (sync_manager.py:251). -/
def jsonSorted (d : Rdata) : String := jsonObj (canonRdata d)

/-! ### models.py -/

/-- models.py:5-10. -/
structure DNSRecord where
  name : String
  type : String
  ttl : Nat
  rdata : Rdata
deriving DecidableEq

/-- `DNSRecord.__eq__` (models.py:12-18): all four fields, rdata as dict equality. -/
def deq (a b : DNSRecord) : Bool :=
  decide (a.name = b.name) && decide (a.type = b.type) && decide (a.ttl = b.ttl)
    && decide (canonRdata a.rdata = canonRdata b.rdata)

/-- models.py:67-68. -/
def isReverseZone (z : String) : Bool :=
  strEndsWith z ".in-addr.arpa" || strEndsWith z ".ip6.arpa"

/-- models.py:70-72. -/
def isInternalZone (z : String) : Bool :=
  z = "0.in-addr.arpa" || z = "127.in-addr.arpa" || z = "255.in-addr.arpa" || z = "localhost"
    || strEndsWith z ".0.0.0.0.0.0.0.0.0.0.0.0.0.0.0.0.0.0.0.0.0.0.0.0.0.0.0.0.0.0.0.ip6.arpa"

/-! ### IP addresses (Python `ipaddress` as used by the engine)

`ipaddress.ip_address` parsing is modelled for dotted-quad IPv4 and for
colon-form IPv6 (with at most one `::`); embedded-IPv4 IPv6 forms are not
modelled.  Only `.reverse_pointer` and validity are consumed by the code. -/

inductive IPAddr where
  | v4 (a b c d : Nat)
  | v6 (groups : List Nat)
deriving DecidableEq

/-- One dotted-quad part: digits only, 0-255, no leading zeros. -/
def parseOctet (s : String) : Option Nat :=
  match s.data with
  | [] => none
  | c :: rest =>
    if c = '0' ∧ rest ≠ [] then none
    else
      match digitsToNat (c :: rest) with
      | some n => if n ≤ 255 then some n else none
      | none => none

def parseIPv4 (s : String) : Option IPAddr :=
  match strSplitChar s '.' with
  | [a, b, c, d] =>
    match parseOctet a, parseOctet b, parseOctet c, parseOctet d with
    | some x, some y, some z, some w => some (IPAddr.v4 x y z w)
    | _, _, _, _ => none
  | _ => none

def hexDigit? (c : Char) : Option Nat :=
  if '0' ≤ c ∧ c ≤ '9' then some (c.toNat - '0'.toNat)
  else if 'a' ≤ c ∧ c ≤ 'f' then some (c.toNat - 'a'.toNat + 10)
  else if 'A' ≤ c ∧ c ≤ 'F' then some (c.toNat - 'A'.toNat + 10)
  else none

def parseHexGroup (s : String) : Option Nat :=
  if s.data.length = 0 ∨ s.data.length > 4 then none
  else s.data.foldl (fun acc c =>
    match acc, hexDigit? c with
    | some v, some d => some (v * 16 + d)
    | _, _ => none) (some 0)

def parseGroups (l : List String) : Option (List Nat) :=
  l.foldr (fun s acc =>
    match parseHexGroup s, acc with
    | some g, some gs => some (g :: gs)
    | _, _ => none) (some [])

def parseIPv6 (s : String) : Option IPAddr :=
  match strSplitDoubleColon s with
  | [t] =>
    match parseGroups (strSplitChar t ':') with
    | some gs => if gs.length = 8 then some (IPAddr.v6 gs) else none
    | none => none
  | [l, r] =>
    let lparts := if l = "" then [] else strSplitChar l ':'
    let rparts := if r = "" then [] else strSplitChar r ':'
    match parseGroups lparts, parseGroups rparts with
    | some gl, some gr =>
      if gl.length + gr.length ≤ 7 then
        some (IPAddr.v6 (gl ++ List.replicate (8 - gl.length - gr.length) 0 ++ gr))
      else none
    | _, _ => none
  | _ => none

def parseIP (s : String) : Option IPAddr :=
  match parseIPv4 s with
  | some ip => some ip
  | none => parseIPv6 s

def hexChar (n : Nat) : String :=
  String.singleton (if n < 10 then Char.ofNat ('0'.toNat + n) else Char.ofNat ('a'.toNat + n - 10))

def v6Nibbles (gs : List Nat) : List String :=
  gs.flatMap (fun g => [hexChar (g / 4096 % 16), hexChar (g / 256 % 16), hexChar (g / 16 % 16), hexChar (g % 16)])

/-- `ipaddress.ip_address(x).reverse_pointer`. -/
def reversePointer : IPAddr → String
  | .v4 a b c d => String.intercalate "." [toString d, toString c, toString b, toString a, "in-addr", "arpa"]
  | .v6 gs => String.intercalate "." ((v6Nibbles gs).reverse ++ ["ip6", "arpa"])

/-- The zone `SyncManager.ip_to_reverse_zone` derives from a parsed address
(sync_manager.py:259-268): the reverse pointer with the first label dropped
for IPv4, the first sixteen labels dropped for IPv6. -/
def zoneOfIp : IPAddr → String
  | .v4 a b c _ => String.intercalate "." [toString c, toString b, toString a, "in-addr", "arpa"]
  | .v6 gs => String.intercalate "." (((v6Nibbles gs).reverse).drop 16 ++ ["ip6", "arpa"])

/-- `SyncManager.ip_to_reverse_zone` (sync_manager.py:259-268); `none` models
the ValueError branch. -/
def ipToReverseZone (s : String) : Option String := (parseIP s).map zoneOfIp

def ipv4Value (a b c d : Nat) : Nat := a * 16777216 + b * 65536 + c * 256 + d

/-- Prefix length of a contiguous-ones dotted netmask value, if any
(`ipaddress.IPv4Network` netmask validation; host-mask forms not modelled). -/
def maskPrefix? (v : Nat) : Option Nat :=
  (List.range 33).find? (fun k => decide (v = 4294967296 - 2 ^ (32 - k)))

/-- models.py:74-79 `get_reverse_zone_from_network`: the /24-style reverse
zone of `IPv4Network(f"{addr}/{mask}", strict=False).network_address`;
`none` models the ValueError branch. -/
def getReverseZoneFromNetwork (net mask : String) : Option String :=
  match parseIPv4 net with
  | some (.v4 a b c d) =>
    let k? : Option Nat :=
      match parseIPv4 mask with
      | some (.v4 ma mb mc md) => maskPrefix? (ipv4Value ma mb mc md)
      | _ =>
        match (if mask.data = [] then none else digitsToNat mask.data) with
        | some p => if p ≤ 32 then some p else none
        | none => none
    match k? with
    | some k =>
      let nv := ipv4Value a b c d / 2 ^ (32 - k) * 2 ^ (32 - k)
      some (String.intercalate "."
        [toString (nv / 256 % 256), toString (nv / 65536 % 256), toString (nv / 16777216), "in-addr", "arpa"])
    | none => none
  | _ => none

/-! ### db_manager.py: the mirror store

`dns_records` (db_manager.py:35-49) declares `id INTEGER PRIMARY KEY` and no
other uniqueness constraint.  `INSERT OR REPLACE` (db_manager.py:80-96,
147-163) replaces exactly the rows that collide with the new row on some
uniqueness constraint; the `id` column is omitted from the INSERT, so SQLite
assigns a fresh rowid and no collision ever happens: the statement appends.
`zone_ownership` declares `zone UNIQUE` and `zone_sync` declares
`UNIQUE(zone, server)`, so for those tables `INSERT OR REPLACE` removes the
colliding row first. -/

structure MirrorRow where
  id : Nat
  server : String
  zone : String
  name : String
  ty : String
  ttl : Nat
  rdata : Rdata
  lastOp : String
deriving DecidableEq

structure OwnershipRow where
  id : Nat
  zone : String
  owner : String
deriving DecidableEq

structure ZoneSyncRow where
  id : Nat
  zone : String
  server : String
  lastSynced : Nat
deriving DecidableEq

structure DB where
  dnsRecords : List MirrorRow
  zoneOwnership : List OwnershipRow
  zoneSync : List ZoneSyncRow
deriving DecidableEq

def emptyDB : DB := ⟨[], [], []⟩

def freshId (ids : List Nat) : Nat := ids.foldl max 0 + 1

/-- db_manager.py:80-96 `add_or_update_record`. -/
def addOrUpdateRecord (db : DB) (server zone : String) (r : DNSRecord) : DB :=
  { db with dnsRecords := db.dnsRecords ++
      [⟨freshId (db.dnsRecords.map (·.id)), server, zone, r.name, r.type, r.ttl, r.rdata, "ADD"⟩] }

/-- db_manager.py:147-163 `mark_record_as_deleted`. -/
def markRecordAsDeleted (db : DB) (server zone : String) (r : DNSRecord) : DB :=
  { db with dnsRecords := db.dnsRecords ++
      [⟨freshId (db.dnsRecords.map (·.id)), server, zone, r.name, r.type, r.ttl, r.rdata, "DELETE"⟩] }

def rowToRecord (row : MirrorRow) : DNSRecord := ⟨row.name, row.ty, row.ttl, row.rdata⟩

/-- db_manager.py:63-78 `get_records`: non-tombstoned rows of (server, zone). -/
def getRecords (db : DB) (server zone : String) : List DNSRecord :=
  (db.dnsRecords.filter (fun row =>
    decide (row.server = server) && decide (row.zone = zone) && !(decide (row.lastOp = "DELETE")))).map rowToRecord

/-- db_manager.py:113-128 `get_deleted_records`. -/
def getDeletedRecords (db : DB) (server zone : String) : List DNSRecord :=
  (db.dnsRecords.filter (fun row =>
    decide (row.server = server) && decide (row.zone = zone) && decide (row.lastOp = "DELETE"))).map rowToRecord

/-- db_manager.py:130-133 `get_zone_owner`. -/
def getZoneOwner (db : DB) (zone : String) : Option String :=
  (db.zoneOwnership.find? (fun row => decide (row.zone = zone))).map (·.owner)

/-- db_manager.py:135-141 `set_zone_owner`: INSERT OR REPLACE against
`zone UNIQUE` removes any row for the same zone, then inserts. -/
def setZoneOwner (db : DB) (zone owner : String) : DB :=
  { db with zoneOwnership :=
      db.zoneOwnership.filter (fun row => !(decide (row.zone = zone)))
        ++ [⟨freshId (db.zoneOwnership.map (·.id)), zone, owner⟩] }

def dedupFirstAux (seen : List String) : List String → List String
  | [] => []
  | s :: rest =>
    if seen.any (fun t => decide (t = s)) then dedupFirstAux seen rest
    else s :: dedupFirstAux (s :: seen) rest

/-- db_manager.py:143-145 `get_all_zones` (SELECT DISTINCT zone, scan order). -/
def getAllZones (db : DB) : List String := dedupFirstAux [] (db.dnsRecords.map (·.zone))

/-- db_manager.py:177-183 `update_zone_sync`: INSERT OR REPLACE against
`UNIQUE(zone, server)`. -/
def updateZoneSync (db : DB) (zone server : String) (now : Nat) : DB :=
  { db with zoneSync :=
      db.zoneSync.filter (fun row => !(decide (row.zone = zone) && decide (row.server = server)))
        ++ [⟨freshId (db.zoneSync.map (·.id)), zone, server, now⟩] }

/-- db_manager.py:185-191 `get_zone_sync`. -/
def getZoneSync (db : DB) (zone server : String) : Option Nat :=
  (db.zoneSync.find? (fun row => decide (row.zone = zone) && decide (row.server = server))).map (·.lastSynced)

/-! ### The change tracker (sync_manager.py:224-227) -/

inductive ChangeType where
  | add
  | update
  | delete
deriving DecidableEq

structure Counts where
  adds : Nat
  updates : Nat
  deletes : Nat
deriving DecidableEq

def Counts.zero : Counts := ⟨0, 0, 0⟩

def bump (c : Counts) : ChangeType → Counts
  | .add => { c with adds := c.adds + 1 }
  | .update => { c with updates := c.updates + 1 }
  | .delete => { c with deletes := c.deletes + 1 }

abbrev Tracker := List (String × List (String × Counts))

/-- sync_manager.py:224-227 `track_change`.  (Python indexes
`self.changes[server_name]` directly; the map is pre-seeded with every
configured server, modelled by defaulting to an empty per-zone map.) -/
def trackChange (t : Tracker) (server zone : String) (ct : ChangeType) : Tracker :=
  let sm := (alookup t server).getD []
  let c := (alookup sm zone).getD Counts.zero
  dinsert t server (dinsert sm zone (bump c ct))

def getCounts (t : Tracker) (server zone : String) : Counts :=
  (alookup ((alookup t server).getD []) zone).getD Counts.zero

/-! ### The sync engine (sync_manager.py) -/

structure Config where
  servers : List String

structure St where
  db : DB
  changes : Tracker
deriving DecidableEq

/-- An upstream call issued through a `TechnitiumDNSClient`. -/
inductive ClientOp where
  | addRec (server zone name ty : String) (ttl : Nat) (rdata : Rdata)
  | updRec (server zone name ty : String) (oldData newData : Rdata)
  | delRec (server zone name ty : String) (rdata : Rdata)
  | addZone (server zone : String)
deriving DecidableEq

abbrev RKey := String × String × String
abbrev RDict := List (RKey × DNSRecord)

/-- sync_manager.py:14-17. -/
def excludedRecordTypes : List String :=
  ["SOA", "NS", "RRSIG", "NSEC", "NSEC3", "DNSKEY", "DS", "CDS", "CDNSKEY", "TSIG", "TKEY", "AXFR", "IXFR"]

def notExcluded (ty : String) : Bool := !(excludedRecordTypes.any (fun t => decide (t = ty)))

/-- sync_manager.py:250-251 `record_key`. -/
def recordKey (r : DNSRecord) : RKey := (r.name, r.type, jsonSorted r.rdata)

def mkRDict (l : List DNSRecord) : RDict := mkDict (l.map (fun r => (recordKey r, r)))

/-- `record.rdata['ipAddress']` (a KeyError in Python would abort the zone;
records without the field, which the upstream API never produces for A/AAAA,
are modelled as having an unparseable address). -/
def ipAddressOf (r : DNSRecord) : String := (alookup r.rdata "ipAddress").getD ""

/-- `record.name.split('.', 1)[1]` (sync_manager.py:65).  A dotless name has
no element at index 1 and raises IndexError in Python; that is `none` here. -/
def restAfterFirstLabel (s : String) : Option String :=
  match strSplitChar s '.' with
  | [] => none
  | [_] => none
  | _ :: rest => some (String.intercalate "." rest)

/-- sync_manager.py:62-68 `is_replicated_record`.  The name split at line 65
is evaluated for the first configured server other than `server`, before any
mirror lookup, so when at least one other server exists and the record's
name has no dot the method raises IndexError — modelled as `none`.  With no
other server the loop body never runs and the method returns False. -/
def isReplicatedRecord (cfg : Config) (db : DB) (server : String) (r : DNSRecord) :
    Option Bool :=
  if cfg.servers.any (fun s => !(decide (s = server))) then
    match restAfterFirstLabel r.name with
    | none => none
    | some parent =>
      some (cfg.servers.any (fun s =>
        !(decide (s = server)) && (getRecords db s parent).any (fun rec => deq rec r)))
  else some false

/-- sync_manager.py:253-257 `get_reverse_zone_owner`. -/
def getReverseZoneOwner (db : DB) (ip : String) : Option String :=
  match ipToReverseZone ip with
  | some rz => getZoneOwner db rz
  | none => none

/-- sync_manager.py:56-60 `is_valid_record_for_server`; the `or` chain is
short-circuit, so `is_replicated_record` (and its possible IndexError,
`none`) is reached only when a reverse-zone owner exists and differs from
`server`. -/
def isValidRecordForServer (cfg : Config) (db : DB) (server : String) (r : DNSRecord) :
    Option Bool :=
  if r.type = "A" ∨ r.type = "AAAA" then
    match getReverseZoneOwner db (ipAddressOf r) with
    | none => some true
    | some o =>
      if o = server then some true
      else isReplicatedRecord cfg db server r
  else some true

/-- The body of one remote-loop iteration of `process_records`
(sync_manager.py:76-103), once `is_valid_record_for_server` has returned
`valid` without raising. -/
def prStep1Go (server zone : String) (localDict deletedDict : RDict)
    (valid : Bool) (acc : St × List ClientOp) (e : RKey × DNSRecord) : St × List ClientOp :=
  let st := acc.1
  let ops := acc.2
  let r := e.2
  if !valid then
    let st1 : St := ⟨markRecordAsDeleted st.db server zone r, trackChange st.changes server zone .delete⟩
    if r.type = "A" ∨ r.type = "AAAA" then
      match parseIP (ipAddressOf r) with
      | some ip =>
        let ptrRec : DNSRecord := ⟨reversePointer ip, "PTR", r.ttl, [("ptrName", r.name)]⟩
        (⟨markRecordAsDeleted st1.db server (zoneOfIp ip) ptrRec,
          trackChange st1.changes server (zoneOfIp ip) .delete⟩, ops)
      | none => (st1, ops)
    else (st1, ops)
  else if rdMember deletedDict e.1 then
    (⟨st.db, trackChange st.changes server zone .delete⟩,
     ops ++ [ClientOp.delRec server zone r.name r.type r.rdata])
  else if !(rdMember localDict e.1) then
    (⟨addOrUpdateRecord st.db server zone r, trackChange st.changes server zone .add⟩, ops)
  else if !(deq r ((alookup localDict e.1).getD r)) then
    (⟨addOrUpdateRecord st.db server zone r, trackChange st.changes server zone .update⟩, ops)
  else acc

/-- One iteration of the remote loop of `process_records`
(sync_manager.py:76-103).  `Except.error` carries the state and call trace
at the point where `is_replicated_record` raised IndexError; once raised,
no later iteration runs (the exception propagates out of the loop). -/
def prStep1 (cfg : Config) (server zone : String) (localDict deletedDict : RDict)
    (acc : Except (St × List ClientOp) (St × List ClientOp)) (e : RKey × DNSRecord) :
    Except (St × List ClientOp) (St × List ClientOp) :=
  match acc with
  | .error a => .error a
  | .ok a =>
    match isValidRecordForServer cfg a.1.db server e.2 with
    | none => .error a
    | some valid => .ok (prStep1Go server zone localDict deletedDict valid a e)

/-- The state-and-trace value of an aborted or completed remote loop. -/
def exOut (x : Except (St × List ClientOp) (St × List ClientOp)) : St × List ClientOp :=
  match x with
  | .error a => a
  | .ok a => a

/-- One iteration of the local loop of `process_records`
(sync_manager.py:105-109). -/
def prStep2 (server zone : String) (remoteDict deletedDict : RDict)
    (st : St) (e : RKey × DNSRecord) : St :=
  if !(rdMember remoteDict e.1) && !(rdMember deletedDict e.1) then
    ⟨markRecordAsDeleted st.db server zone e.2, trackChange st.changes server zone .delete⟩
  else st

/-- sync_manager.py:70-109 `process_records`.  If the remote loop raises
(IndexError from `is_replicated_record` at a dotless name), the exception
propagates to the caller `sync_zone`, which catches and logs it: the
committed mirror writes, tracker bumps and issued calls up to that point
stand, and the local loop never runs. -/
def processRecords (cfg : Config) (server zone : String)
    (remote localR deletedR : List DNSRecord) (st : St) : St × List ClientOp :=
  match (mkRDict (remote.filter (fun r => notExcluded r.type))).foldl
      (prStep1 cfg server zone (mkRDict (localR.filter (fun r => notExcluded r.type)))
        (mkRDict deletedR)) (Except.ok (st, [])) with
  | .error p1 => p1
  | .ok p1 =>
    ((mkRDict (localR.filter (fun r => notExcluded r.type))).foldl
      (prStep2 server zone (mkRDict (remote.filter (fun r => notExcluded r.type)))
        (mkRDict deletedR)) p1.1, p1.2)

/-- sync_manager.py:44-54 `sync_zone`; `resp = none` models a failed fetch
(logged and dropped).  On success, local and tombstone rows are read from
the mirror and `process_records` runs.  Note: no `update_zone_sync` call
appears in the source. -/
def syncZone (cfg : Config) (server zone : String) (resp : Option (List DNSRecord)) (st : St) :
    St × List ClientOp :=
  match resp with
  | none => (st, [])
  | some remote =>
    processRecords cfg server zone remote (getRecords st.db server zone)
      (getDeletedRecords st.db server zone) st

/-- One iteration of the delete loop of `update_server_records`
(sync_manager.py:145-152). -/
def usrDelStep (server zone : String) (targetDict deletedDict : RDict)
    (acc : St × List ClientOp) (e : RKey × DNSRecord) : St × List ClientOp :=
  if !(rdMember targetDict e.1) || rdMember deletedDict e.1 then
    (⟨acc.1.db, trackChange acc.1.changes server zone .delete⟩,
     acc.2 ++ [ClientOp.delRec server zone e.2.name e.2.type e.2.rdata])
  else acc

/-- One iteration of the add/update loop of `update_server_records`
(sync_manager.py:154-188). -/
def usrAddStep (server zone : String) (currentDict deletedDict : RDict)
    (acc : St × List ClientOp) (e : RKey × DNSRecord) : St × List ClientOp :=
  let st := acc.1
  let ops := acc.2
  let r := e.2
  if rdMember deletedDict e.1 then acc
  else
    let generic : St × List ClientOp :=
      match alookup currentDict e.1 with
      | none =>
        (⟨st.db, trackChange st.changes server zone .add⟩,
         ops ++ [ClientOp.addRec server zone r.name r.type r.ttl r.rdata])
      | some c =>
        if !(deq r c) then
          (⟨st.db, trackChange st.changes server zone .update⟩,
           ops ++ [ClientOp.updRec server zone r.name r.type c.rdata r.rdata])
        else acc
    if r.type = "A" ∨ r.type = "AAAA" then
      match getReverseZoneOwner st.db (ipAddressOf r) with
      | some o =>
        if !(decide (o = server)) then
          match alookup currentDict e.1 with
          | none =>
            (⟨st.db, trackChange st.changes server zone .add⟩,
             ops ++ [ClientOp.addRec server zone r.name r.type r.ttl r.rdata])
          | some c =>
            if !(deq r c) then
              (⟨st.db, trackChange st.changes server zone .update⟩,
               ops ++ [ClientOp.updRec server zone r.name r.type c.rdata r.rdata])
            else acc
        else generic
      | none => generic
    else generic

/-- sync_manager.py:131-188 `update_server_records`.  `current` is the
upstream record listing for (server, zone); the unused `zone_owner`
parameter of the Python method is kept for fidelity. -/
def updateServerRecords (server zone : String) (_zoneOwner : Option String)
    (target current : List DNSRecord) (st : St) : St × List ClientOp :=
  let currentDict := mkRDict (current.filter (fun r => notExcluded r.type))
  let targetDict := mkRDict (target.filter (fun r => notExcluded r.type))
  let deletedDict := mkRDict (getDeletedRecords st.db server zone)
  let p1 := currentDict.foldl (usrDelStep server zone targetDict deletedDict) (st, [])
  let p2 := targetDict.foldl (usrAddStep server zone currentDict deletedDict) (p1.1, [])
  (p2.1, p1.2 ++ p2.2)

/-- sync_manager.py:203-211 `ensure_reverse_zone_exists`; `zonesList` is the
upstream zone listing for the server. -/
def ensureReverseZoneExists (server zone : String) (zonesList : List String) (st : St) :
    St × List ClientOp :=
  if zonesList.any (fun z => decide (z = zone)) then (st, [])
  else (⟨st.db, trackChange st.changes server zone .add⟩, [ClientOp.addZone server zone])

/-- The inner loop of `sync_dhcp_scopes` (sync_manager.py:196-197): ensure
the derived reverse zone exists on every configured server. -/
def dhcpEnsure (cfg : Config) (rz : String) (zonesOf : String → List String)
    (acc : St × List ClientOp) : St × List ClientOp :=
  cfg.servers.foldl (fun a srv =>
    let e := ensureReverseZoneExists srv rz (zonesOf srv) a.1
    (e.1, a.2 ++ e.2)) acc

/-- One iteration of `sync_dhcp_scopes` (sync_manager.py:193-199); a scope is
(networkAddress, subnetMask); `zonesOf` and `fetch` are the upstream
responses consulted by `ensure_reverse_zone_exists` and `sync_zone`. -/
def dhcpStep (cfg : Config) (server : String) (zonesOf : String → List String)
    (fetch : String → String → Option (List DNSRecord))
    (acc : St × List ClientOp) (scope : String × String) : St × List ClientOp :=
  match getReverseZoneFromNetwork scope.1 scope.2 with
  | none => acc
  | some rz =>
    let ens := dhcpEnsure cfg rz zonesOf acc
    let st1 : St := ⟨setZoneOwner ens.1.db rz server, ens.1.changes⟩
    let sy := syncZone cfg server rz (fetch server rz) st1
    (sy.1, ens.2 ++ sy.2)

/-- sync_manager.py:190-201 `sync_dhcp_scopes`. -/
def syncDhcpScopes (cfg : Config) (server : String) (scopes : List (String × String))
    (zonesOf : String → List String) (fetch : String → String → Option (List DNSRecord))
    (st : St) : St × List ClientOp :=
  scopes.foldl (dhcpStep cfg server zonesOf fetch) (st, [])

/-- Inner dict update of `get_all_records_for_zone` (sync_manager.py:217-221). -/
def garzInner (d : RDict) (r : DNSRecord) : RDict :=
  if notExcluded r.type then
    if rdMember d (recordKey r) then d else d ++ [(recordKey r, r)]
  else d

/-- sync_manager.py:213-222 `get_all_records_for_zone`. -/
def getAllRecordsForZone (cfg : Config) (db : DB) (zone : String) : List DNSRecord :=
  (cfg.servers.foldl (fun d s => (getRecords db s zone).foldl garzInner d) []).map (·.2)

/-- One `update_server_records(server, zone, target, zone_owner)` invocation
made by `propagate_changes`. -/
structure UpdateCall where
  server : String
  zone : String
  target : List DNSRecord
  ownerArg : Option String
deriving DecidableEq

/-- sync_manager.py:111-129 `propagate_changes`, recorded as the ordered list
of `update_server_records` invocations it makes (the reverse-zone ensure
calls issue no record operations and carry no target set). -/
def propagateCalls (cfg : Config) (db : DB) : List UpdateCall :=
  (getAllZones db).flatMap (fun z =>
    if isInternalZone z then []
    else
      match getZoneOwner db z with
      | some o =>
        (cfg.servers.filter (fun s => !(decide (s = o)))).map
          (fun s => ⟨s, z, getRecords db o z, some o⟩)
      | none =>
        cfg.servers.map (fun s => ⟨s, z, getAllRecordsForZone cfg db z, none⟩))

/-! ### Definitions used only by theorem statements -/

/-- Number of mirror rows carrying a given `(server, zone, name, type)` identity. -/
def identityCount (db : DB) (server zone name ty : String) : Nat :=
  (db.dnsRecords.filter (fun row =>
    decide (row.server = server) && decide (row.zone = zone)
      && decide (row.name = name) && decide (row.ty = ty))).length

def isDelOp : ClientOp → Bool
  | .delRec _ _ _ _ _ => true
  | _ => false

def isAddOp : ClientOp → Bool
  | .addRec _ _ _ _ _ _ => true
  | _ => false

/-- Every delete in the list precedes every add: no add is followed by a
later delete. -/
def delsPrecedeAdds : List ClientOp → Bool
  | [] => true
  | op :: rest => (if isAddOp op then !(rest.any isDelOp) else true) && delsPrecedeAdds rest

/-- A record-level upstream call carries a non-excluded type (zone creation
carries no record type). -/
def opTypePure : ClientOp → Bool
  | .addRec _ _ _ ty _ _ => notExcluded ty
  | .updRec _ _ _ ty _ _ => notExcluded ty
  | .delRec _ _ _ ty _ => notExcluded ty
  | .addZone _ _ => true

def rowPure (row : MirrorRow) : Bool := notExcluded row.ty

/-- The record key a mirror row would carry. -/
def rowKey (row : MirrorRow) : RKey := (row.name, row.ty, jsonSorted row.rdata)

/-! ### Definitions modelled from the spec, for refinement comparison -/

/-- Modelled from the spec (§4.1): `canonical_name` strips a trailing
`.<zone>` suffix and maps a name equal to the zone to `"@"`.  No such
canonicalization appears in the source. -/
def canonicalName (zone name : String) : String :=
  if name = zone then "@"
  else if strEndsWith name ("." ++ zone) then strDropRight name (zone.data.length + 1)
  else name

/-- Modelled from the spec (§4.1): the record key `(canonical_name, type,
canonical_rdata)`. -/
def specRecordKey (zone : String) (r : DNSRecord) : RKey :=
  (canonicalName zone r.name, r.type, jsonSorted r.rdata)

/-- Modelled from the spec (§4.4.2): deduplicate a record list by record
key, first occurrence wins. -/
def specDedupByKey (seen : List RKey) : List DNSRecord → List DNSRecord
  | [] => []
  | r :: rest =>
    if seen.any (fun k => decide (k = recordKey r)) then specDedupByKey seen rest
    else r :: specDedupByKey (seen ++ [recordKey r]) rest

/-- Modelled from the spec (§4.4.2, shared mode): the union of
`mirror.get_records(s, Z)` over all servers, deduplicated by record key,
first occurrence wins. -/
def specSharedTarget (cfg : Config) (db : DB) (zone : String) : List DNSRecord :=
  specDedupByKey [] (cfg.servers.flatMap (fun s => getRecords db s zone))

/-- Modelled from the spec (§4.4.2): for every observed non-internal zone,
push the owner's records to every other server in authoritative mode, and
the deduplicated union to every server in shared mode. -/
def specPropagateCalls (cfg : Config) (db : DB) : List UpdateCall :=
  (getAllZones db).flatMap (fun z =>
    if isInternalZone z then []
    else
      match getZoneOwner db z with
      | some o =>
        (cfg.servers.filter (fun s => !(decide (s = o)))).map
          (fun s => ⟨s, z, getRecords db o z, some o⟩)
      | none =>
        cfg.servers.map (fun s => ⟨s, z, specSharedTarget cfg db z, none⟩))

/-! ### Concrete inputs used by counterexamples and witnesses -/

def cfgAB : Config := ⟨["A", "B"]⟩

def recW : DNSRecord := ⟨"www", "A", 300, [("ipAddress", "1.2.3.4")]⟩

def recFq : DNSRecord := ⟨"www.example.com", "A", 300, [("ipAddress", "1.2.3.4")]⟩

def recFq150 : DNSRecord := ⟨"www.example.com", "A", 150, [("ipAddress", "1.2.3.4")]⟩

def stEmpty : St := ⟨emptyDB, []⟩

/-- Same name, type and rdata dictionary as `rKeyB`, different ttl and rdata
order. -/
def rKeyA : DNSRecord := ⟨"www.example.com", "A", 300, [("b", "2"), ("a", "1")]⟩

def rKeyB : DNSRecord := ⟨"www.example.com", "A", 5, [("a", "1"), ("b", "2")]⟩

/-- A state whose mirror records reverse-zone ownership of
`0.0.10.in-addr.arpa` by server `A`. -/
def stOwnA : St := ⟨⟨[], [⟨1, "0.0.10.in-addr.arpa", "A"⟩], []⟩, []⟩

/-- An A record pointing into the `10.0.0.0/24` range whose dotless name
makes `is_replicated_record` raise IndexError. -/
def recTen : DNSRecord := ⟨"www", "A", 300, [("ipAddress", "10.0.0.5")]⟩

/-- Like `recTen` but with a dotted name, so the replication check can run. -/
def recTenFq : DNSRecord := ⟨"www.shared.lan", "A", 300, [("ipAddress", "10.0.0.5")]⟩

def ipTen : IPAddr := .v4 10 0 0 5

/-- A mirror exercising both propagation modes: `example.com` is shared
(with a duplicated record key across servers), `owned.com` is owned by `A`
and carries a tombstone on `B`. -/
def dbShared : DB := ⟨[
  ⟨1, "A", "example.com", "a", "A", 300, [("ipAddress", "1.1.1.1")], "ADD"⟩,
  ⟨2, "B", "example.com", "b", "A", 300, [("ipAddress", "2.2.2.2")], "ADD"⟩,
  ⟨3, "B", "example.com", "a", "A", 120, [("ipAddress", "1.1.1.1")], "ADD"⟩,
  ⟨4, "A", "owned.com", "x", "A", 300, [("ipAddress", "3.3.3.3")], "ADD"⟩,
  ⟨5, "B", "owned.com", "y", "A", 300, [("ipAddress", "4.4.4.4")], "DELETE"⟩],
  [⟨1, "owned.com", "A"⟩], []⟩

/-- Pointwise order on change counters. -/
def cLe (a b : Counts) : Prop := a.adds ≤ b.adds ∧ a.updates ≤ b.updates ∧ a.deletes ≤ b.deletes

/-- The tracker only ever grows. -/
def TrLe (t t' : Tracker) : Prop := ∀ s z, cLe (getCounts t s z) (getCounts t' s z)

/-- How `process_records` evolves the state: ownership and zone_sync rows
are untouched, mirror rows are only appended (and every appended row
satisfies `P`), and the tracker only grows. -/
def Evolves (P : MirrorRow → Bool) (a b : St) : Prop :=
  b.db.zoneOwnership = a.db.zoneOwnership ∧
  b.db.zoneSync = a.db.zoneSync ∧
  (∃ Δ : List MirrorRow, b.db.dnsRecords = a.db.dnsRecords ++ Δ ∧ Δ.all P = true) ∧
  TrLe a.changes b.changes

/-- How `sync_dhcp_scopes` for `server` evolves the state: an ownership row
is never removed, an owner can only change to `server`, mirror rows are only
appended (satisfying `P`), and the tracker only grows. -/
def DhcpEv (server : String) (P : MirrorRow → Bool) (a b : St) : Prop :=
  (∀ z, (getZoneOwner a.db z).isSome → (getZoneOwner b.db z).isSome) ∧
  (∀ z o', getZoneOwner b.db z = some o' → getZoneOwner a.db z = some o' ∨ o' = server) ∧
  (∃ Δ : List MirrorRow, b.db.dnsRecords = a.db.dnsRecords ++ Δ ∧ Δ.all P = true) ∧
  TrLe a.changes b.changes

/-! ## Lemmas about the dictionary model -/

theorem alookup_dinsert_self {α β : Type} [DecidableEq α] (l : List (α × β)) (k : α) (v : β) :
    alookup (dinsert l k v) k = some v := by
  induction l with
  | nil => simp [dinsert, alookup]
  | cons p rest ih =>
    by_cases h : p.1 = k
    · simp [dinsert, h, alookup]
    · simp [dinsert, h, alookup, ih]

theorem alookup_dinsert_ne {α β : Type} [DecidableEq α] (l : List (α × β)) (k : α) (v : β)
    (k' : α) (h : k' ≠ k) : alookup (dinsert l k v) k' = alookup l k' := by
  have h' : ¬(k = k') := fun h2 => h h2.symm
  induction l with
  | nil => simp only [dinsert, alookup]; rw [if_neg h']
  | cons p rest ih =>
    obtain ⟨p1, p2⟩ := p
    by_cases hp : p1 = k
    · subst hp
      simp only [dinsert, if_pos rfl, alookup]
      rw [if_neg h', if_neg h']
    · simp only [dinsert, if_neg hp, alookup, ih]

theorem mem_dinsert {α β : Type} [DecidableEq α] (l : List (α × β)) (k : α) (v : β)
    (q : α × β) (hq : q ∈ dinsert l k v) : q ∈ l ∨ q = (k, v) := by
  induction l with
  | nil => simp [dinsert] at hq; simp [hq]
  | cons p rest ih =>
    by_cases hp : p.1 = k
    · simp only [dinsert, if_pos hp] at hq
      rcases List.mem_cons.mp hq with h | h
      · right; exact h
      · left; exact List.mem_cons_of_mem _ h
    · simp only [dinsert, if_neg hp] at hq
      rcases List.mem_cons.mp hq with h | h
      · left; exact h ▸ List.mem_cons_self _ _
      · rcases ih h with h2 | h2
        · left; exact List.mem_cons_of_mem _ h2
        · right; exact h2

theorem mem_of_alookup_some {α β : Type} [DecidableEq α] (l : List (α × β)) (k : α) (v : β)
    (h : alookup l k = some v) : (k, v) ∈ l := by
  induction l with
  | nil => simp [alookup] at h
  | cons p rest ih =>
    obtain ⟨p1, p2⟩ := p
    by_cases hp : p1 = k
    · simp only [alookup, if_pos hp, Option.some.injEq] at h
      subst hp
      subst h
      exact List.mem_cons_self _ _
    · simp only [alookup, if_neg hp] at h
      exact List.mem_cons_of_mem _ (ih h)

theorem mem_foldl_dinsert {α β : Type} [DecidableEq α] (l : List (α × β)) :
    ∀ (acc : List (α × β)) (q : α × β),
      q ∈ l.foldl (fun d p => dinsert d p.1 p.2) acc → q ∈ acc ∨ q ∈ l := by
  induction l with
  | nil => intro acc q h; exact Or.inl h
  | cons p rest ih =>
    obtain ⟨p1, p2⟩ := p
    intro acc q h
    rcases ih (dinsert acc p1 p2) q h with h2 | h2
    · rcases mem_dinsert _ _ _ _ h2 with h3 | h3
      · exact Or.inl h3
      · right; rw [h3]; exact List.mem_cons_self _ _
    · right; exact List.mem_cons_of_mem _ h2

theorem mem_mkDict {α β : Type} [DecidableEq α] (l : List (α × β)) (q : α × β)
    (h : q ∈ mkDict l) : q ∈ l := by
  rcases mem_foldl_dinsert l [] q h with h2 | h2
  · simp at h2
  · exact h2

theorem keys_dinsert {α β : Type} [DecidableEq α] (l : List (α × β)) (k : α) (v : β) :
    (dinsert l k v).map (·.1) = if (alookup l k).isSome then l.map (·.1) else l.map (·.1) ++ [k] := by
  induction l with
  | nil => simp [dinsert, alookup]
  | cons p rest ih =>
    by_cases hp : p.1 = k
    · simp [dinsert, hp, alookup]
    · simp only [dinsert, if_neg hp, alookup, List.map_cons, ih]
      by_cases hs : (alookup rest k).isSome
      · simp [hs, hp]
      · simp [hs, hp]

theorem alookup_isSome_iff_mem_keys {α β : Type} [DecidableEq α] (l : List (α × β)) (k : α) :
    (alookup l k).isSome = true ↔ k ∈ l.map (·.1) := by
  induction l with
  | nil => simp [alookup]
  | cons p rest ih =>
    obtain ⟨p1, p2⟩ := p
    by_cases hp : p1 = k
    · simp [alookup, hp]
    · have hp' : ¬(k = p1) := fun h => hp h.symm
      simp [alookup, hp, hp', ih]

theorem keys_nodup_dinsert {α β : Type} [DecidableEq α] (l : List (α × β)) (k : α) (v : β)
    (h : (l.map (·.1)).Nodup) : ((dinsert l k v).map (·.1)).Nodup := by
  rw [keys_dinsert]
  by_cases hs : (alookup l k).isSome
  · simp [hs, h]
  · simp only [hs, if_false, Bool.false_eq_true]
    refine List.Nodup.append h (List.nodup_singleton k) ?_
    intro a ha hb
    simp at hb
    subst hb
    exact hs ((alookup_isSome_iff_mem_keys l a).mpr ha)

theorem keys_nodup_foldl_dinsert {α β : Type} [DecidableEq α] (l : List (α × β)) :
    ∀ (acc : List (α × β)), (acc.map (·.1)).Nodup →
      ((l.foldl (fun d p => dinsert d p.1 p.2) acc).map (·.1)).Nodup := by
  induction l with
  | nil => intro acc h; exact h
  | cons p rest ih => intro acc h; exact ih _ (keys_nodup_dinsert _ _ _ h)

theorem keys_nodup_mkDict {α β : Type} [DecidableEq α] (l : List (α × β)) :
    ((mkDict l).map (·.1)).Nodup :=
  keys_nodup_foldl_dinsert l [] (by simp)

theorem alookup_foldl_dinsert_unique {α β : Type} [DecidableEq α] (l : List (α × β)) (k : α) (v : β) :
    ∀ (acc : List (α × β)),
      (∀ v', (k, v') ∈ acc → v' = v) →
      (∀ v', (k, v') ∈ l → v' = v) →
      (alookup acc k = some v ∨ ∃ v', (k, v') ∈ l) →
      alookup (l.foldl (fun d p => dinsert d p.1 p.2) acc) k = some v := by
  induction l with
  | nil =>
    intro acc _ _ hex
    rcases hex with h | ⟨v', hv'⟩
    · exact h
    · simp at hv'
  | cons p rest ih =>
    obtain ⟨p1, p2⟩ := p
    intro acc hacc hl hex
    refine ih (dinsert acc p1 p2) ?_ (fun v' hv' => hl v' (List.mem_cons_of_mem _ hv')) ?_
    · intro v' hv'
      rcases mem_dinsert _ _ _ _ hv' with h2 | h2
      · exact hacc v' h2
      · have h1 : k = p1 := congrArg Prod.fst h2
        subst h1
        have h3 : v' = p2 := congrArg Prod.snd h2
        subst h3
        exact hl v' (List.mem_cons_self _ _)
    · by_cases hp : p1 = k
      · left
        subst hp
        have hv : p2 = v := hl p2 (List.mem_cons_self _ _)
        rw [alookup_dinsert_self, hv]
      · rcases hex with h | ⟨v', hv'⟩
        · left; rw [alookup_dinsert_ne _ _ _ _ (fun h2 => hp h2.symm)]; exact h
        · rcases List.mem_cons.mp hv' with h2 | h2
          · exact absurd (congrArg Prod.fst h2).symm hp
          · right; exact ⟨v', h2⟩

theorem alookup_mkDict_of_unique {α β : Type} [DecidableEq α] (l : List (α × β)) (k : α) (v : β)
    (hm : (k, v) ∈ l) (hu : ∀ v', (k, v') ∈ l → v' = v) :
    alookup (mkDict l) k = some v :=
  alookup_foldl_dinsert_unique l k v [] (by simp) hu (Or.inr ⟨v, hm⟩)

/-! ## Lemmas about the change tracker -/

theorem getCounts_trackChange_self (t : Tracker) (s z : String) (ct : ChangeType) :
    getCounts (trackChange t s z ct) s z = bump (getCounts t s z) ct := by
  unfold trackChange getCounts
  rw [alookup_dinsert_self]
  simp [alookup_dinsert_self]

theorem getCounts_trackChange_other (t : Tracker) (s z : String) (ct : ChangeType)
    (s' z' : String) (h : ¬(s' = s ∧ z' = z)) :
    getCounts (trackChange t s z ct) s' z' = getCounts t s' z' := by
  unfold trackChange getCounts
  by_cases hs : s' = s
  · subst hs
    have hz : z' ≠ z := fun hz => h ⟨rfl, hz⟩
    rw [alookup_dinsert_self]
    simp [alookup_dinsert_ne _ _ _ _ hz]
  · rw [alookup_dinsert_ne _ _ _ _ hs]

theorem cLe_refl (c : Counts) : cLe c c := ⟨le_refl _, le_refl _, le_refl _⟩

theorem cLe_trans {a b c : Counts} (h1 : cLe a b) (h2 : cLe b c) : cLe a c :=
  ⟨le_trans h1.1 h2.1, le_trans h1.2.1 h2.2.1, le_trans h1.2.2 h2.2.2⟩

theorem cLe_bump (c : Counts) (ct : ChangeType) : cLe c (bump c ct) := by
  cases ct <;> exact ⟨by simp [bump], by simp [bump], by simp [bump]⟩

theorem trLe_refl (t : Tracker) : TrLe t t := fun _ _ => cLe_refl _

theorem trLe_trans {a b c : Tracker} (h1 : TrLe a b) (h2 : TrLe b c) : TrLe a c :=
  fun s z => cLe_trans (h1 s z) (h2 s z)

theorem trLe_trackChange (t : Tracker) (s z : String) (ct : ChangeType) :
    TrLe t (trackChange t s z ct) := by
  intro s' z'
  by_cases h : s' = s ∧ z' = z
  · rw [h.1, h.2, getCounts_trackChange_self]
    exact cLe_bump _ _
  · rw [getCounts_trackChange_other _ _ _ _ _ _ h]
    exact cLe_refl _

/-! ## Lemmas about state evolution during ingest -/

theorem evolves_rfl (P : MirrorRow → Bool) (st : St) : Evolves P st st :=
  ⟨rfl, rfl, ⟨[], by simp, rfl⟩, trLe_refl _⟩

theorem evolves_trans {P : MirrorRow → Bool} {a b c : St}
    (h1 : Evolves P a b) (h2 : Evolves P b c) : Evolves P a c := by
  obtain ⟨ho1, hs1, ⟨d1, hd1, ha1⟩, ht1⟩ := h1
  obtain ⟨ho2, hs2, ⟨d2, hd2, ha2⟩, ht2⟩ := h2
  refine ⟨ho2.trans ho1, hs2.trans hs1, ⟨d1 ++ d2, ?_, ?_⟩, trLe_trans ht1 ht2⟩
  · rw [hd2, hd1, List.append_assoc]
  · rw [List.all_append, ha1, ha2]; rfl

theorem evolves_mono {P Q : MirrorRow → Bool} (himp : ∀ row, P row = true → Q row = true)
    {a b : St} (h : Evolves P a b) : Evolves Q a b := by
  obtain ⟨ho, hs, ⟨d, hd, ha⟩, ht⟩ := h
  refine ⟨ho, hs, ⟨d, hd, ?_⟩, ht⟩
  rw [List.all_eq_true] at ha ⊢
  exact fun row hrow => himp row (ha row hrow)

theorem evolves_mark_track (P : MirrorRow → Bool) (st : St) (server zone s' z' : String)
    (r : DNSRecord) (ct : ChangeType)
    (hP : ∀ i, P ⟨i, server, zone, r.name, r.type, r.ttl, r.rdata, "DELETE"⟩ = true) :
    Evolves P st ⟨markRecordAsDeleted st.db server zone r, trackChange st.changes s' z' ct⟩ := by
  refine ⟨rfl, rfl, ⟨_, rfl, ?_⟩, trLe_trackChange _ _ _ _⟩
  simp [hP]

theorem evolves_add_track (P : MirrorRow → Bool) (st : St) (server zone s' z' : String)
    (r : DNSRecord) (ct : ChangeType)
    (hP : ∀ i, P ⟨i, server, zone, r.name, r.type, r.ttl, r.rdata, "ADD"⟩ = true) :
    Evolves P st ⟨addOrUpdateRecord st.db server zone r, trackChange st.changes s' z' ct⟩ := by
  refine ⟨rfl, rfl, ⟨_, rfl, ?_⟩, trLe_trackChange _ _ _ _⟩
  simp [hP]

theorem evolves_track (P : MirrorRow → Bool) (st : St) (s' z' : String) (ct : ChangeType) :
    Evolves P st ⟨st.db, trackChange st.changes s' z' ct⟩ :=
  ⟨rfl, rfl, ⟨[], by simp, rfl⟩, trLe_trackChange _ _ _ _⟩

/-- What one remote-loop iteration can do: ownership and zone_sync are kept,
every appended row belongs to the syncing server, has a non-excluded type,
and is either a tombstone or carries the entry's record key; every issued
call is a delete with the entry's (non-excluded) type. -/
theorem prStep1Go_spec (server zone : String) (lD dD : RDict) (valid : Bool)
    (acc : St × List ClientOp) (e : RKey × DNSRecord)
    (hkey : e.1 = recordKey e.2) (hpure : notExcluded e.2.type = true) :
    Evolves (fun row => decide (row.server = server) && rowPure row &&
        (decide (row.lastOp = "DELETE") || decide (rowKey row = e.1))) acc.1
      (prStep1Go server zone lD dD valid acc e).1 ∧
    ∃ newOps, (prStep1Go server zone lD dD valid acc e).2 = acc.2 ++ newOps ∧
      newOps.all (fun op => opTypePure op && isDelOp op) = true := by
  dsimp only [prStep1Go]
  by_cases hv : (!valid) = true
  · rw [if_pos hv]
    by_cases hA : (e.2.type = "A" ∨ e.2.type = "AAAA")
    · rw [if_pos hA]
      cases hparse : parseIP (ipAddressOf e.2) with
      | some ip =>
        refine ⟨?_, ⟨[], by simp, rfl⟩⟩
        refine evolves_trans (evolves_mark_track _ _ _ _ server zone e.2 .delete ?_)
          (evolves_mark_track _ _ _ _ server (zoneOfIp ip) _ .delete ?_)
        · intro i; simp [rowPure, hpure, rowKey]
        · intro i; simp [rowPure, rowKey]; decide
      | none =>
        refine ⟨evolves_mark_track _ _ _ _ server zone e.2 .delete ?_, ⟨[], by simp, rfl⟩⟩
        intro i; simp [rowPure, hpure, rowKey]
    · rw [if_neg hA]
      refine ⟨evolves_mark_track _ _ _ _ server zone e.2 .delete ?_, ⟨[], by simp, rfl⟩⟩
      intro i; simp [rowPure, hpure, rowKey]
  · rw [if_neg hv]
    by_cases hdel : rdMember dD e.1 = true
    · rw [if_pos hdel]
      refine ⟨evolves_track _ _ server zone .delete,
        ⟨[ClientOp.delRec server zone e.2.name e.2.type e.2.rdata], rfl, ?_⟩⟩
      simp [opTypePure, isDelOp, hpure]
    · rw [if_neg hdel]
      by_cases hloc : (!(rdMember lD e.1)) = true
      · rw [if_pos hloc]
        refine ⟨evolves_add_track _ _ _ _ server zone e.2 .add ?_, ⟨[], by simp, rfl⟩⟩
        intro i
        simp [rowPure, hpure, rowKey, recordKey, hkey]
      · rw [if_neg hloc]
        by_cases hne : (!(deq e.2 ((alookup lD e.1).getD e.2))) = true
        · rw [if_pos hne]
          refine ⟨evolves_add_track _ _ _ _ server zone e.2 .update ?_, ⟨[], by simp, rfl⟩⟩
          intro i
          simp [rowPure, hpure, rowKey, recordKey, hkey]
        · rw [if_neg hne]
          exact ⟨evolves_rfl _ _, ⟨[], by simp, rfl⟩⟩

/-- What one local-loop iteration can do: it appends only tombstones. -/
theorem prStep2_spec (server zone : String) (rD dD : RDict) (st : St) (e : RKey × DNSRecord)
    (hpure : notExcluded e.2.type = true) :
    Evolves (fun row => decide (row.server = server) && rowPure row &&
        decide (row.lastOp = "DELETE")) st
      (prStep2 server zone rD dD st e) := by
  dsimp only [prStep2]
  by_cases h : (!(rdMember rD e.1) && !(rdMember dD e.1)) = true
  · rw [if_pos h]
    refine evolves_mark_track _ _ _ _ server zone e.2 .delete ?_
    intro i; simp [rowPure, hpure]
  · rw [if_neg h]
    exact evolves_rfl _ _

theorem mkRDict_wellKeyed (l : List DNSRecord) :
    ∀ e ∈ mkRDict l, e.1 = recordKey e.2 := by
  intro e he
  have hm := mem_mkDict _ _ he
  simp only [List.mem_map] at hm
  obtain ⟨r, _, hr⟩ := hm
  rw [← hr]

theorem mkRDict_pure (l : List DNSRecord) (hl : ∀ r ∈ l, notExcluded r.type = true) :
    ∀ e ∈ mkRDict l, notExcluded e.2.type = true := by
  intro e he
  have hm := mem_mkDict _ _ he
  simp only [List.mem_map] at hm
  obtain ⟨r, hrl, hr⟩ := hm
  rw [← hr]
  exact hl r hrl

/-- Once the remote loop has raised, the remaining iterations do nothing. -/
theorem foldl_prStep1_error (cfg : Config) (server zone : String) (lD dD : RDict)
    (a : St × List ClientOp) :
    ∀ l : RDict, l.foldl (prStep1 cfg server zone lD dD) (.error a) = .error a := by
  intro l
  induction l with
  | nil => rfl
  | cons e rest ih =>
    rw [List.foldl_cons]
    exact ih

theorem foldl_prStep1_spec (cfg : Config) (server zone : String) (lD dD : RDict)
    (Q : MirrorRow → Bool) :
    ∀ l : RDict,
      (∀ e ∈ l, e.1 = recordKey e.2 ∧ notExcluded e.2.type = true ∧
        ∀ row : MirrorRow, (decide (row.server = server) && rowPure row &&
          (decide (row.lastOp = "DELETE") || decide (rowKey row = e.1))) = true → Q row = true) →
      ∀ acc : St × List ClientOp,
        Evolves Q acc.1 ((exOut (l.foldl (prStep1 cfg server zone lD dD) (.ok acc))).1) ∧
        ∃ newOps, (exOut (l.foldl (prStep1 cfg server zone lD dD) (.ok acc))).2
            = acc.2 ++ newOps ∧
          newOps.all (fun op => opTypePure op && isDelOp op) = true := by
  intro l
  induction l with
  | nil => exact fun _ acc => ⟨evolves_rfl _ _, ⟨[], by simp [exOut], rfl⟩⟩
  | cons e rest ih =>
    intro hl acc
    obtain ⟨hkey, hpure, himp⟩ := hl e (List.mem_cons_self _ _)
    rw [List.foldl_cons]
    cases hv : isValidRecordForServer cfg acc.1.db server e.2 with
    | none =>
      have hstep : prStep1 cfg server zone lD dD (.ok acc) e = .error acc := by
        dsimp only [prStep1]
        rw [hv]
      rw [hstep, foldl_prStep1_error cfg server zone lD dD acc rest]
      exact ⟨evolves_rfl _ _, ⟨[], by simp [exOut], rfl⟩⟩
    | some valid =>
      have hstep : prStep1 cfg server zone lD dD (.ok acc) e
          = .ok (prStep1Go server zone lD dD valid acc e) := by
        dsimp only [prStep1]
        rw [hv]
      rw [hstep]
      obtain ⟨hev, no1, hops1, hall1⟩ := prStep1Go_spec server zone lD dD valid acc e hkey hpure
      obtain ⟨hev2, no2, hops2, hall2⟩ :=
        ih (fun e' he' => hl e' (List.mem_cons_of_mem _ he'))
          (prStep1Go server zone lD dD valid acc e)
      refine ⟨evolves_trans (evolves_mono himp hev) hev2, no1 ++ no2, ?_, ?_⟩
      · rw [hops2, hops1, List.append_assoc]
      · rw [List.all_append, hall1, hall2]; rfl

theorem foldl_prStep2_spec (server zone : String) (rD dD : RDict) (Q : MirrorRow → Bool) :
    ∀ l : RDict,
      (∀ e ∈ l, notExcluded e.2.type = true ∧
        ∀ row : MirrorRow, (decide (row.server = server) && rowPure row &&
          decide (row.lastOp = "DELETE")) = true → Q row = true) →
      ∀ st : St, Evolves Q st (l.foldl (prStep2 server zone rD dD) st) := by
  intro l
  induction l with
  | nil => exact fun _ st => evolves_rfl _ _
  | cons e rest ih =>
    intro hl st
    obtain ⟨hpure, himp⟩ := hl e (List.mem_cons_self _ _)
    exact evolves_trans (evolves_mono himp (prStep2_spec server zone rD dD st e hpure))
      (ih (fun e' he' => hl e' (List.mem_cons_of_mem _ he')) _)

/-- `process_records` only appends mirror rows for the syncing server with
non-excluded types, keeps ownership and zone_sync untouched, only grows the
tracker, and issues only delete calls with non-excluded types. -/
theorem processRecords_spec (cfg : Config) (server zone : String)
    (remote localR deletedR : List DNSRecord) (st : St) :
    Evolves (fun row => decide (row.server = server) && rowPure row) st
      (processRecords cfg server zone remote localR deletedR st).1 ∧
    (processRecords cfg server zone remote localR deletedR st).2.all
      (fun op => opTypePure op && isDelOp op) = true := by
  have hrc : ∀ e ∈ mkRDict (remote.filter (fun r => notExcluded r.type)),
      e.1 = recordKey e.2 ∧ notExcluded e.2.type = true ∧
      ∀ row : MirrorRow, (decide (row.server = server) && rowPure row &&
        (decide (row.lastOp = "DELETE") || decide (rowKey row = e.1))) = true →
        (decide (row.server = server) && rowPure row) = true := by
    intro e he
    refine ⟨mkRDict_wellKeyed _ e he,
      mkRDict_pure _ (fun r hr => (List.mem_filter.mp hr).2) e he, ?_⟩
    intro row h
    simp only [Bool.and_eq_true] at h ⊢
    exact h.1
  have hlc : ∀ e ∈ mkRDict (localR.filter (fun r => notExcluded r.type)),
      notExcluded e.2.type = true ∧
      ∀ row : MirrorRow, (decide (row.server = server) && rowPure row &&
        decide (row.lastOp = "DELETE")) = true →
        (decide (row.server = server) && rowPure row) = true := by
    intro e he
    refine ⟨mkRDict_pure _ (fun r hr => (List.mem_filter.mp hr).2) e he, ?_⟩
    intro row h
    simp only [Bool.and_eq_true] at h ⊢
    exact h.1
  obtain ⟨hev1, no1, hops1, hall1⟩ :=
    foldl_prStep1_spec cfg server zone (mkRDict (localR.filter (fun r => notExcluded r.type)))
      (mkRDict deletedR) (fun row => decide (row.server = server) && rowPure row)
      (mkRDict (remote.filter (fun r => notExcluded r.type))) hrc (st, [])
  cases hfold : (mkRDict (remote.filter (fun r => notExcluded r.type))).foldl
      (prStep1 cfg server zone (mkRDict (localR.filter (fun r => notExcluded r.type)))
        (mkRDict deletedR)) (Except.ok (st, [])) with
  | error p1 =>
    rw [hfold] at hev1 hops1
    have hpr : processRecords cfg server zone remote localR deletedR st = p1 := by
      unfold processRecords
      rw [hfold]
    rw [hpr]
    refine ⟨hev1, ?_⟩
    show p1.2.all (fun op => opTypePure op && isDelOp op) = true
    rw [show p1.2 = [] ++ no1 from hops1, List.nil_append]
    exact hall1
  | ok p1 =>
    rw [hfold] at hev1 hops1
    have hev2 :=
      foldl_prStep2_spec server zone (mkRDict (remote.filter (fun r => notExcluded r.type)))
        (mkRDict deletedR) (fun row => decide (row.server = server) && rowPure row)
        (mkRDict (localR.filter (fun r => notExcluded r.type))) hlc p1.1
    have hpr : processRecords cfg server zone remote localR deletedR st =
        ((mkRDict (localR.filter (fun r => notExcluded r.type))).foldl
          (prStep2 server zone (mkRDict (remote.filter (fun r => notExcluded r.type)))
            (mkRDict deletedR)) p1.1, p1.2) := by
      unfold processRecords
      rw [hfold]
    rw [hpr]
    refine ⟨evolves_trans hev1 hev2, ?_⟩
    show p1.2.all (fun op => opTypePure op && isDelOp op) = true
    rw [show p1.2 = [] ++ no1 from hops1, List.nil_append]
    exact hall1

/-! ## Lemmas about propagation (`update_server_records`) -/

theorem usrDelStep_spec (server zone : String) (tD dD : RDict)
    (acc : St × List ClientOp) (e : RKey × DNSRecord) (hpure : notExcluded e.2.type = true) :
    (usrDelStep server zone tD dD acc e).1.db = acc.1.db ∧
    TrLe acc.1.changes (usrDelStep server zone tD dD acc e).1.changes ∧
    ∃ newOps, (usrDelStep server zone tD dD acc e).2 = acc.2 ++ newOps ∧
      newOps.all (fun op => opTypePure op && isDelOp op) = true := by
  dsimp only [usrDelStep]
  by_cases h : (!(rdMember tD e.1) || rdMember dD e.1) = true
  · rw [if_pos h]
    exact ⟨rfl, trLe_trackChange _ _ _ _,
      ⟨[ClientOp.delRec server zone e.2.name e.2.type e.2.rdata], rfl,
        by simp [opTypePure, isDelOp, hpure]⟩⟩
  · rw [if_neg h]
    exact ⟨rfl, trLe_refl _, ⟨[], by simp, rfl⟩⟩

theorem usrAddStep_spec (server zone : String) (cD dD : RDict)
    (acc : St × List ClientOp) (e : RKey × DNSRecord) (hpure : notExcluded e.2.type = true) :
    (usrAddStep server zone cD dD acc e).1.db = acc.1.db ∧
    TrLe acc.1.changes (usrAddStep server zone cD dD acc e).1.changes ∧
    ∃ newOps, (usrAddStep server zone cD dD acc e).2 = acc.2 ++ newOps ∧
      newOps.all (fun op => opTypePure op && !(isDelOp op)) = true := by
  dsimp only [usrAddStep]
  by_cases hdel : rdMember dD e.1 = true
  · rw [if_pos hdel]
    exact ⟨rfl, trLe_refl _, ⟨[], by simp, rfl⟩⟩
  · rw [if_neg hdel]
    split
    · split
      · split
        · split
          · exact ⟨rfl, trLe_trackChange _ _ _ _,
              ⟨[ClientOp.addRec server zone e.2.name e.2.type e.2.ttl e.2.rdata], rfl,
                by simp [opTypePure, isDelOp, hpure]⟩⟩
          · split
            · exact ⟨rfl, trLe_trackChange _ _ _ _,
                ⟨[ClientOp.updRec server zone e.2.name e.2.type _ e.2.rdata], rfl,
                  by simp [opTypePure, isDelOp, hpure]⟩⟩
            · exact ⟨rfl, trLe_refl _, ⟨[], by simp, rfl⟩⟩
        · split
          · exact ⟨rfl, trLe_trackChange _ _ _ _,
              ⟨[ClientOp.addRec server zone e.2.name e.2.type e.2.ttl e.2.rdata], rfl,
                by simp [opTypePure, isDelOp, hpure]⟩⟩
          · split
            · exact ⟨rfl, trLe_trackChange _ _ _ _,
                ⟨[ClientOp.updRec server zone e.2.name e.2.type _ e.2.rdata], rfl,
                  by simp [opTypePure, isDelOp, hpure]⟩⟩
            · exact ⟨rfl, trLe_refl _, ⟨[], by simp, rfl⟩⟩
      · split
        · exact ⟨rfl, trLe_trackChange _ _ _ _,
            ⟨[ClientOp.addRec server zone e.2.name e.2.type e.2.ttl e.2.rdata], rfl,
              by simp [opTypePure, isDelOp, hpure]⟩⟩
        · split
          · exact ⟨rfl, trLe_trackChange _ _ _ _,
              ⟨[ClientOp.updRec server zone e.2.name e.2.type _ e.2.rdata], rfl,
                by simp [opTypePure, isDelOp, hpure]⟩⟩
          · exact ⟨rfl, trLe_refl _, ⟨[], by simp, rfl⟩⟩
    · split
      · exact ⟨rfl, trLe_trackChange _ _ _ _,
          ⟨[ClientOp.addRec server zone e.2.name e.2.type e.2.ttl e.2.rdata], rfl,
            by simp [opTypePure, isDelOp, hpure]⟩⟩
      · split
        · exact ⟨rfl, trLe_trackChange _ _ _ _,
            ⟨[ClientOp.updRec server zone e.2.name e.2.type _ e.2.rdata], rfl,
              by simp [opTypePure, isDelOp, hpure]⟩⟩
        · exact ⟨rfl, trLe_refl _, ⟨[], by simp, rfl⟩⟩

theorem foldl_usrDelStep_spec (server zone : String) (tD dD : RDict) :
    ∀ l : RDict, (∀ e ∈ l, notExcluded e.2.type = true) →
      ∀ acc : St × List ClientOp,
        (l.foldl (usrDelStep server zone tD dD) acc).1.db = acc.1.db ∧
        TrLe acc.1.changes (l.foldl (usrDelStep server zone tD dD) acc).1.changes ∧
        ∃ newOps, (l.foldl (usrDelStep server zone tD dD) acc).2 = acc.2 ++ newOps ∧
          newOps.all (fun op => opTypePure op && isDelOp op) = true := by
  intro l
  induction l with
  | nil => exact fun _ acc => ⟨rfl, trLe_refl _, ⟨[], by simp, rfl⟩⟩
  | cons e rest ih =>
    intro hl acc
    obtain ⟨hdb1, htr1, no1, hops1, hall1⟩ :=
      usrDelStep_spec server zone tD dD acc e (hl e (List.mem_cons_self _ _))
    obtain ⟨hdb2, htr2, no2, hops2, hall2⟩ :=
      ih (fun e' he' => hl e' (List.mem_cons_of_mem _ he')) (usrDelStep server zone tD dD acc e)
    refine ⟨hdb2.trans hdb1, trLe_trans htr1 htr2, no1 ++ no2, ?_, ?_⟩
    · rw [List.foldl_cons, hops2, hops1, List.append_assoc]
    · rw [List.all_append, hall1, hall2]; rfl

theorem foldl_usrAddStep_spec (server zone : String) (cD dD : RDict) :
    ∀ l : RDict, (∀ e ∈ l, notExcluded e.2.type = true) →
      ∀ acc : St × List ClientOp,
        (l.foldl (usrAddStep server zone cD dD) acc).1.db = acc.1.db ∧
        TrLe acc.1.changes (l.foldl (usrAddStep server zone cD dD) acc).1.changes ∧
        ∃ newOps, (l.foldl (usrAddStep server zone cD dD) acc).2 = acc.2 ++ newOps ∧
          newOps.all (fun op => opTypePure op && !(isDelOp op)) = true := by
  intro l
  induction l with
  | nil => exact fun _ acc => ⟨rfl, trLe_refl _, ⟨[], by simp, rfl⟩⟩
  | cons e rest ih =>
    intro hl acc
    obtain ⟨hdb1, htr1, no1, hops1, hall1⟩ :=
      usrAddStep_spec server zone cD dD acc e (hl e (List.mem_cons_self _ _))
    obtain ⟨hdb2, htr2, no2, hops2, hall2⟩ :=
      ih (fun e' he' => hl e' (List.mem_cons_of_mem _ he')) (usrAddStep server zone cD dD acc e)
    refine ⟨hdb2.trans hdb1, trLe_trans htr1 htr2, no1 ++ no2, ?_, ?_⟩
    · rw [List.foldl_cons, hops2, hops1, List.append_assoc]
    · rw [List.all_append, hall1, hall2]; rfl

/-- `update_server_records` never writes the mirror, only grows the tracker,
and its call trace is a block of deletes followed by a block of adds and
updates, all with non-excluded types. -/
theorem updateServerRecords_spec (server zone : String) (ow : Option String)
    (target current : List DNSRecord) (st : St) :
    (updateServerRecords server zone ow target current st).1.db = st.db ∧
    TrLe st.changes (updateServerRecords server zone ow target current st).1.changes ∧
    ∃ ops1 ops2, (updateServerRecords server zone ow target current st).2 = ops1 ++ ops2 ∧
      ops1.all (fun op => opTypePure op && isDelOp op) = true ∧
      ops2.all (fun op => opTypePure op && !(isDelOp op)) = true := by
  obtain ⟨hdb1, htr1, no1, hops1, hall1⟩ :=
    foldl_usrDelStep_spec server zone
      (mkRDict (target.filter (fun r => notExcluded r.type)))
      (mkRDict (getDeletedRecords st.db server zone))
      (mkRDict (current.filter (fun r => notExcluded r.type)))
      (mkRDict_pure _ (fun r hr => (List.mem_filter.mp hr).2)) (st, [])
  obtain ⟨hdb2, htr2, no2, hops2, hall2⟩ :=
    foldl_usrAddStep_spec server zone
      (mkRDict (current.filter (fun r => notExcluded r.type)))
      (mkRDict (getDeletedRecords st.db server zone))
      (mkRDict (target.filter (fun r => notExcluded r.type)))
      (mkRDict_pure _ (fun r hr => (List.mem_filter.mp hr).2))
      (((mkRDict (current.filter (fun r => notExcluded r.type))).foldl
        (usrDelStep server zone (mkRDict (target.filter (fun r => notExcluded r.type)))
          (mkRDict (getDeletedRecords st.db server zone))) (st, [])).1, [])
  refine ⟨hdb2.trans hdb1, trLe_trans htr1 htr2, no1, no2, ?_, hall1, hall2⟩
  show (((mkRDict (current.filter (fun r => notExcluded r.type))).foldl
      (usrDelStep server zone (mkRDict (target.filter (fun r => notExcluded r.type)))
        (mkRDict (getDeletedRecords st.db server zone))) (st, [])).2
    ++ ((mkRDict (target.filter (fun r => notExcluded r.type))).foldl
      (usrAddStep server zone (mkRDict (current.filter (fun r => notExcluded r.type)))
        (mkRDict (getDeletedRecords st.db server zone)))
      (((mkRDict (current.filter (fun r => notExcluded r.type))).foldl
        (usrDelStep server zone (mkRDict (target.filter (fun r => notExcluded r.type)))
          (mkRDict (getDeletedRecords st.db server zone))) (st, [])).1, [])).2) = no1 ++ no2
  rw [hops2, hops1]
  simp

theorem delsPrecedeAdds_append (l1 l2 : List ClientOp)
    (h1 : l1.all isDelOp = true) (h2 : l2.all (fun op => !(isDelOp op)) = true) :
    delsPrecedeAdds (l1 ++ l2) = true := by
  induction l1 with
  | nil =>
    simp only [List.nil_append]
    induction l2 with
    | nil => rfl
    | cons op rest ih =>
      rw [List.all_cons, Bool.and_eq_true] at h2
      simp only [delsPrecedeAdds, Bool.and_eq_true]
      refine ⟨?_, ih h2.2⟩
      split
      · simp only [Bool.not_eq_true']
        rw [List.any_eq_false]
        intro op2 hop2
        have := (List.all_eq_true.mp h2.2) op2 hop2
        simpa using this
      · rfl
  | cons op rest ih =>
    rw [List.all_cons, Bool.and_eq_true] at h1
    simp only [List.cons_append, delsPrecedeAdds, Bool.and_eq_true]
    refine ⟨?_, ih h1.2⟩
    have hnadd : isAddOp op = false := by
      cases op <;> simp [isAddOp, isDelOp] at h1 ⊢
    rw [if_neg (by simp [hnadd])]

theorem all_imp {α : Type} (l : List α) (p q : α → Bool)
    (himp : ∀ x, p x = true → q x = true) (h : l.all p = true) : l.all q = true := by
  rw [List.all_eq_true] at h ⊢
  exact fun x hx => himp x (h x hx)

theorem band_left {a b : Bool} (h : (a && b) = true) : a = true := by
  rw [Bool.and_eq_true] at h; exact h.1

theorem band_right {a b : Bool} (h : (a && b) = true) : b = true := by
  rw [Bool.and_eq_true] at h; exact h.2

/-! ## Lemmas about zone ownership and DHCP-scope ingestion -/

theorem find?_zone_filter_append_self (l : List OwnershipRow) (z : String) (row : OwnershipRow)
    (hz : row.zone = z) :
    ((l.filter (fun r => !(decide (r.zone = z)))) ++ [row]).find?
      (fun r => decide (r.zone = z)) = some row := by
  induction l with
  | nil =>
    simp only [List.filter_nil, List.nil_append]
    exact List.find?_cons_of_pos _ (by simp [hz])
  | cons r rest ih =>
    by_cases hr : r.zone = z
    · rw [List.filter_cons, if_neg (by simp [hr])]
      exact ih
    · rw [List.filter_cons, if_pos (by simp [hr]), List.cons_append,
        List.find?_cons_of_neg _ (by simp [hr])]
      exact ih

theorem find?_zone_filter_append_ne (l : List OwnershipRow) (z : String) (row : OwnershipRow)
    (z' : String) (h : z' ≠ z) (hz : row.zone = z) :
    ((l.filter (fun r => !(decide (r.zone = z)))) ++ [row]).find?
      (fun r => decide (r.zone = z')) = l.find? (fun r => decide (r.zone = z')) := by
  induction l with
  | nil =>
    simp only [List.filter_nil, List.nil_append, List.find?_nil]
    exact List.find?_cons_of_neg _ (by simp [hz]; exact fun h2 => h h2.symm)
  | cons r rest ih =>
    by_cases hr : r.zone = z
    · have hr' : ¬(r.zone = z') := fun h2 => h (h2.symm.trans hr)
      rw [List.filter_cons, if_neg (by simp [hr]), List.find?_cons_of_neg _ (by simp [hr'])]
      exact ih
    · rw [List.filter_cons, if_pos (by simp [hr]), List.cons_append]
      by_cases hr2 : r.zone = z'
      · rw [List.find?_cons_of_pos _ (by simp [hr2]), List.find?_cons_of_pos _ (by simp [hr2])]
      · rw [List.find?_cons_of_neg _ (by simp [hr2]), List.find?_cons_of_neg _ (by simp [hr2])]
        exact ih

theorem getZoneOwner_setZoneOwner_self (db : DB) (z o : String) :
    getZoneOwner (setZoneOwner db z o) z = some o := by
  unfold getZoneOwner setZoneOwner
  dsimp only
  rw [find?_zone_filter_append_self db.zoneOwnership z _ rfl]
  rfl

theorem getZoneOwner_setZoneOwner_ne (db : DB) (z o z' : String) (h : z' ≠ z) :
    getZoneOwner (setZoneOwner db z o) z' = getZoneOwner db z' := by
  unfold getZoneOwner setZoneOwner
  dsimp only
  rw [find?_zone_filter_append_ne db.zoneOwnership z _ z' h rfl]

theorem dhcpEv_rfl (server : String) (P : MirrorRow → Bool) (st : St) : DhcpEv server P st st :=
  ⟨fun _ h => h, fun _ _ h => Or.inl h, ⟨[], by simp, rfl⟩, trLe_refl _⟩

theorem dhcpEv_trans {server : String} {P : MirrorRow → Bool} {a b c : St}
    (h1 : DhcpEv server P a b) (h2 : DhcpEv server P b c) : DhcpEv server P a c := by
  obtain ⟨hs1, hv1, ⟨d1, hd1, ha1⟩, ht1⟩ := h1
  obtain ⟨hs2, hv2, ⟨d2, hd2, ha2⟩, ht2⟩ := h2
  refine ⟨fun z h => hs2 z (hs1 z h), ?_, ⟨d1 ++ d2, ?_, ?_⟩, trLe_trans ht1 ht2⟩
  · intro z o' h
    rcases hv2 z o' h with h3 | h3
    · exact hv1 z o' h3
    · exact Or.inr h3
  · rw [hd2, hd1, List.append_assoc]
  · rw [List.all_append, ha1, ha2]; rfl

theorem evolves_dhcpEv {server : String} {P : MirrorRow → Bool} {a b : St}
    (h : Evolves P a b) : DhcpEv server P a b := by
  obtain ⟨ho, _, hrows, ht⟩ := h
  refine ⟨?_, ?_, hrows, ht⟩
  · intro z hz
    unfold getZoneOwner at hz ⊢
    rw [ho]
    exact hz
  · intro z o' hz
    unfold getZoneOwner at hz ⊢
    rw [ho] at hz
    exact Or.inl hz

theorem dhcpEv_setZoneOwner (server : String) (P : MirrorRow → Bool) (st : St) (rz : String) :
    DhcpEv server P st ⟨setZoneOwner st.db rz server, st.changes⟩ := by
  refine ⟨?_, ?_, ⟨[], by simp [setZoneOwner], rfl⟩, trLe_refl _⟩
  · intro z hz
    show (getZoneOwner (setZoneOwner st.db rz server) z).isSome = true
    by_cases h : z = rz
    · subst h; rw [getZoneOwner_setZoneOwner_self]; rfl
    · rw [getZoneOwner_setZoneOwner_ne _ _ _ _ h]; exact hz
  · intro z o' hz
    have hz' : getZoneOwner (setZoneOwner st.db rz server) z = some o' := hz
    by_cases h : z = rz
    · subst h
      have h2 : some server = some o' :=
        (getZoneOwner_setZoneOwner_self st.db _ server).symm.trans hz'
      exact Or.inr (Option.some.inj h2).symm
    · rw [getZoneOwner_setZoneOwner_ne _ _ _ _ h] at hz'
      exact Or.inl hz'

theorem ensure_spec (server zone : String) (zonesList : List String) (st : St) :
    (ensureReverseZoneExists server zone zonesList st).1.db = st.db ∧
    TrLe st.changes (ensureReverseZoneExists server zone zonesList st).1.changes ∧
    (ensureReverseZoneExists server zone zonesList st).2.all opTypePure = true := by
  dsimp only [ensureReverseZoneExists]
  split
  · exact ⟨rfl, trLe_refl _, rfl⟩
  · exact ⟨rfl, trLe_trackChange _ _ _ _, by simp [opTypePure]⟩

theorem syncZone_spec (cfg : Config) (server zone : String)
    (resp : Option (List DNSRecord)) (st : St) :
    Evolves (fun row => decide (row.server = server) && rowPure row) st
      (syncZone cfg server zone resp st).1 ∧
    (syncZone cfg server zone resp st).2.all (fun op => opTypePure op && isDelOp op) = true := by
  cases resp with
  | none => exact ⟨evolves_rfl _ _, rfl⟩
  | some remote => exact processRecords_spec cfg server zone remote _ _ st

theorem foldl_ensure_spec (rz : String) (zonesOf : String → List String) :
    ∀ (servers : List String) (acc : St × List ClientOp),
      ((servers.foldl (fun a srv =>
        let e := ensureReverseZoneExists srv rz (zonesOf srv) a.1
        (e.1, a.2 ++ e.2)) acc)).1.db = acc.1.db ∧
      TrLe acc.1.changes ((servers.foldl (fun a srv =>
        let e := ensureReverseZoneExists srv rz (zonesOf srv) a.1
        (e.1, a.2 ++ e.2)) acc)).1.changes ∧
      ∃ newOps, ((servers.foldl (fun a srv =>
        let e := ensureReverseZoneExists srv rz (zonesOf srv) a.1
        (e.1, a.2 ++ e.2)) acc)).2 = acc.2 ++ newOps ∧ newOps.all opTypePure = true := by
  intro servers
  induction servers with
  | nil => exact fun acc => ⟨rfl, trLe_refl _, ⟨[], by simp, rfl⟩⟩
  | cons srv rest ih =>
    intro acc
    obtain ⟨hdb1, htr1, hall1⟩ := ensure_spec srv rz (zonesOf srv) acc.1
    obtain ⟨hdb2, htr2, no2, hops2, hall2⟩ :=
      ih ((ensureReverseZoneExists srv rz (zonesOf srv) acc.1).1,
        acc.2 ++ (ensureReverseZoneExists srv rz (zonesOf srv) acc.1).2)
    refine ⟨hdb2.trans hdb1, trLe_trans htr1 htr2,
      (ensureReverseZoneExists srv rz (zonesOf srv) acc.1).2 ++ no2, ?_, ?_⟩
    · rw [List.foldl_cons]
      rw [hops2, List.append_assoc]
    · rw [List.all_append, hall1, hall2]; rfl

theorem dhcpEnsure_spec (cfg : Config) (rz : String) (zonesOf : String → List String)
    (acc : St × List ClientOp) :
    (dhcpEnsure cfg rz zonesOf acc).1.db = acc.1.db ∧
    TrLe acc.1.changes (dhcpEnsure cfg rz zonesOf acc).1.changes ∧
    ∃ newOps, (dhcpEnsure cfg rz zonesOf acc).2 = acc.2 ++ newOps ∧
      newOps.all opTypePure = true :=
  foldl_ensure_spec rz zonesOf cfg.servers acc

theorem dhcpStep_spec (cfg : Config) (server : String) (zonesOf : String → List String)
    (fetch : String → String → Option (List DNSRecord))
    (acc : St × List ClientOp) (scope : String × String) :
    DhcpEv server (fun row => decide (row.server = server) && rowPure row) acc.1
      (dhcpStep cfg server zonesOf fetch acc scope).1 ∧
    ∃ newOps, (dhcpStep cfg server zonesOf fetch acc scope).2 = acc.2 ++ newOps ∧
      newOps.all opTypePure = true := by
  cases hz : getReverseZoneFromNetwork scope.1 scope.2 with
  | none =>
    simp only [dhcpStep, hz]
    exact ⟨dhcpEv_rfl _ _ _, ⟨[], by simp, rfl⟩⟩
  | some rz =>
    simp only [dhcpStep, hz]
    obtain ⟨hdb1, htr1, no1, hops1, hall1⟩ := dhcpEnsure_spec cfg rz zonesOf acc
    obtain ⟨hev2, hall2⟩ := syncZone_spec cfg server rz (fetch server rz)
      ⟨setZoneOwner (dhcpEnsure cfg rz zonesOf acc).1.db rz server,
        (dhcpEnsure cfg rz zonesOf acc).1.changes⟩
    have hd1 : DhcpEv server (fun row => decide (row.server = server) && rowPure row) acc.1
        (dhcpEnsure cfg rz zonesOf acc).1 := by
      refine ⟨?_, ?_, ⟨[], by simp [hdb1], rfl⟩, htr1⟩
      · intro z h; unfold getZoneOwner at h ⊢; rw [hdb1]; exact h
      · intro z o' h; unfold getZoneOwner at h ⊢; rw [hdb1] at h; exact Or.inl h
    have hd2 : DhcpEv server (fun row => decide (row.server = server) && rowPure row)
        (dhcpEnsure cfg rz zonesOf acc).1
        ⟨setZoneOwner (dhcpEnsure cfg rz zonesOf acc).1.db rz server,
          (dhcpEnsure cfg rz zonesOf acc).1.changes⟩ :=
      dhcpEv_setZoneOwner server _ (dhcpEnsure cfg rz zonesOf acc).1 rz
    have hd3 : DhcpEv server (fun row => decide (row.server = server) && rowPure row)
        ⟨setZoneOwner (dhcpEnsure cfg rz zonesOf acc).1.db rz server,
          (dhcpEnsure cfg rz zonesOf acc).1.changes⟩
        (syncZone cfg server rz (fetch server rz)
          ⟨setZoneOwner (dhcpEnsure cfg rz zonesOf acc).1.db rz server,
            (dhcpEnsure cfg rz zonesOf acc).1.changes⟩).1 := evolves_dhcpEv hev2
    refine ⟨dhcpEv_trans (dhcpEv_trans hd1 hd2) hd3,
      no1 ++ (syncZone cfg server rz (fetch server rz)
        ⟨setZoneOwner (dhcpEnsure cfg rz zonesOf acc).1.db rz server,
          (dhcpEnsure cfg rz zonesOf acc).1.changes⟩).2, ?_, ?_⟩
    · rw [hops1, List.append_assoc]
    · rw [List.all_append, hall1]
      simp only [Bool.true_and]
      exact all_imp _ _ _ (fun op h => by
        rw [Bool.and_eq_true] at h; exact h.1) hall2

theorem syncDhcpScopes_spec (cfg : Config) (server : String) (scopes : List (String × String))
    (zonesOf : String → List String) (fetch : String → String → Option (List DNSRecord))
    (st : St) :
    DhcpEv server (fun row => decide (row.server = server) && rowPure row) st
      (syncDhcpScopes cfg server scopes zonesOf fetch st).1 ∧
    (syncDhcpScopes cfg server scopes zonesOf fetch st).2.all opTypePure = true := by
  have main : ∀ (l : List (String × String)) (acc : St × List ClientOp),
      DhcpEv server (fun row => decide (row.server = server) && rowPure row) acc.1
        ((l.foldl (dhcpStep cfg server zonesOf fetch) acc)).1 ∧
      ∃ newOps, ((l.foldl (dhcpStep cfg server zonesOf fetch) acc)).2 = acc.2 ++ newOps ∧
        newOps.all opTypePure = true := by
    intro l
    induction l with
    | nil => exact fun acc => ⟨dhcpEv_rfl _ _ _, ⟨[], by simp, rfl⟩⟩
    | cons sc rest ih =>
      intro acc
      obtain ⟨hd1, no1, hops1, hall1⟩ := dhcpStep_spec cfg server zonesOf fetch acc sc
      obtain ⟨hd2, no2, hops2, hall2⟩ := ih (dhcpStep cfg server zonesOf fetch acc sc)
      refine ⟨dhcpEv_trans hd1 hd2, no1 ++ no2, ?_, ?_⟩
      · rw [List.foldl_cons, hops2, hops1, List.append_assoc]
      · rw [List.all_append, hall1, hall2]; rfl
  obtain ⟨hd, no, hops, hall⟩ := main scopes (st, [])
  refine ⟨hd, ?_⟩
  show ((scopes.foldl (dhcpStep cfg server zonesOf fetch) (st, []))).2.all opTypePure = true
  rw [hops]
  simpa using hall

/-! ## Branch-evaluation lemmas for single-record scenarios -/

theorem filter_pure_singleton (r : DNSRecord) (h : notExcluded r.type = true) :
    [r].filter (fun x => notExcluded x.type) = [r] := by simp [h]

theorem mkRDict_singleton (r : DNSRecord) (h : notExcluded r.type = true) :
    mkRDict ([r].filter (fun x => notExcluded x.type)) = [(recordKey r, r)] := by
  rw [filter_pure_singleton r h]
  rfl

theorem mkRDict_nil : mkRDict ([] : List DNSRecord) = [] := rfl

theorem prStep1_new (cfg : Config) (server zone : String) (lD dD : RDict)
    (acc : St × List ClientOp) (e : RKey × DNSRecord)
    (hvalid : isValidRecordForServer cfg acc.1.db server e.2 = some true)
    (hdd : rdMember dD e.1 = false) (hld : rdMember lD e.1 = false) :
    prStep1 cfg server zone lD dD (.ok acc) e =
      .ok (⟨addOrUpdateRecord acc.1.db server zone e.2,
        trackChange acc.1.changes server zone .add⟩, acc.2) := by
  dsimp only [prStep1]
  rw [hvalid]
  dsimp only [prStep1Go]
  rw [if_neg (by decide), if_neg (by simp [hdd]), if_pos (by simp [hld])]

theorem prStep1_changed (cfg : Config) (server zone : String) (lD dD : RDict)
    (acc : St × List ClientOp) (e : RKey × DNSRecord) (l : DNSRecord)
    (hvalid : isValidRecordForServer cfg acc.1.db server e.2 = some true)
    (hdd : rdMember dD e.1 = false) (halk : alookup lD e.1 = some l)
    (hdeq : deq e.2 l = false) :
    prStep1 cfg server zone lD dD (.ok acc) e =
      .ok (⟨addOrUpdateRecord acc.1.db server zone e.2,
        trackChange acc.1.changes server zone .update⟩, acc.2) := by
  dsimp only [prStep1]
  rw [hvalid]
  dsimp only [prStep1Go]
  rw [if_neg (by decide), if_neg (by simp [hdd]),
    if_neg (by simp [rdMember, halk]), if_pos (by simp [halk, hdeq])]

theorem prStep2_skip (server zone : String) (rD dD : RDict) (st : St) (e : RKey × DNSRecord)
    (h : rdMember rD e.1 = true) :
    prStep2 server zone rD dD st e = st := by
  dsimp only [prStep2]
  rw [if_neg (by simp [h])]

theorem usrDelStep_skip (server zone : String) (tD dD : RDict)
    (acc : St × List ClientOp) (e : RKey × DNSRecord)
    (h1 : rdMember tD e.1 = true) (h2 : rdMember dD e.1 = false) :
    usrDelStep server zone tD dD acc e = acc := by
  dsimp only [usrDelStep]
  rw [if_neg (by simp [h1, h2])]

theorem usrAddStep_update (server zone : String) (cD dD : RDict)
    (acc : St × List ClientOp) (e : RKey × DNSRecord) (c : DNSRecord)
    (hdd : rdMember dD e.1 = false) (halk : alookup cD e.1 = some c)
    (hdeq : deq e.2 c = false)
    (hro : getReverseZoneOwner acc.1.db (ipAddressOf e.2) = none) :
    usrAddStep server zone cD dD acc e =
      (⟨acc.1.db, trackChange acc.1.changes server zone .update⟩,
        acc.2 ++ [ClientOp.updRec server zone e.2.name e.2.type c.rdata e.2.rdata]) := by
  dsimp only [usrAddStep]
  rw [if_neg (by simp [hdd]), halk]
  by_cases hA : (e.2.type = "A" ∨ e.2.type = "AAAA")
  · rw [if_pos hA, hro]
    dsimp only
    rw [if_pos (by simp [hdeq])]
  · rw [if_neg hA]
    dsimp only
    rw [if_pos (by simp [hdeq])]

/-! ## Lemmas for the invalid-record (C10) analysis -/

theorem getZoneOwner_congr (db db' : DB) (h : db'.zoneOwnership = db.zoneOwnership)
    (z : String) : getZoneOwner db' z = getZoneOwner db z := by
  unfold getZoneOwner
  rw [h]

theorem getRecords_append_other (db db' : DB) (Δ : List MirrorRow)
    (hrows : db'.dnsRecords = db.dnsRecords ++ Δ) (s z : String)
    (hΔ : ∀ row ∈ Δ, ¬(row.server = s)) :
    getRecords db' s z = getRecords db s z := by
  unfold getRecords
  rw [hrows, List.filter_append]
  have hnil : Δ.filter (fun row => decide (row.server = s) && decide (row.zone = z)
      && !(decide (row.lastOp = "DELETE"))) = [] := by
    rw [List.filter_eq_nil_iff]
    intro row hrow
    simp [hΔ row hrow]
  rw [hnil, List.append_nil]

theorem mem_getRecords (db : DB) (s z : String) (rec : DNSRecord)
    (h : rec ∈ getRecords db s z) :
    ∃ row, row ∈ db.dnsRecords ∧ row.server = s ∧ ¬(row.lastOp = "DELETE") ∧
      rowToRecord row = rec := by
  unfold getRecords at h
  rw [List.mem_map] at h
  obtain ⟨row, hrow, hrec⟩ := h
  rw [List.mem_filter] at hrow
  obtain ⟨h1, h2⟩ := hrow
  simp only [Bool.and_eq_true, Bool.not_eq_true', decide_eq_true_eq, decide_eq_false_iff_not]
    at h2
  exact ⟨row, h1, h2.1.1, h2.2, hrec⟩

theorem getReverseZoneOwner_congr (db db' : DB) (h : db'.zoneOwnership = db.zoneOwnership)
    (ipStr : String) : getReverseZoneOwner db' ipStr = getReverseZoneOwner db ipStr := by
  unfold getReverseZoneOwner
  cases ipToReverseZone ipStr with
  | none => rfl
  | some rz => exact getZoneOwner_congr db db' h rz

/-- `is_replicated_record` raises (is `none`) exactly when another server is
configured and the record's name has no dot — independently of the mirror. -/
theorem isReplicated_none_iff (cfg : Config) (db : DB) (server : String) (r : DNSRecord) :
    isReplicatedRecord cfg db server r = none ↔
      (cfg.servers.any (fun s => !(decide (s = server))) = true ∧
        restAfterFirstLabel r.name = none) := by
  unfold isReplicatedRecord
  by_cases ho : cfg.servers.any (fun s => !(decide (s = server))) = true
  · rw [if_pos ho]
    cases hd : restAfterFirstLabel r.name with
    | none => simp [ho, hd]
    | some parent => simp [ho, hd]
  · rw [if_neg ho]
    simp [ho]

/-- Whether `is_valid_record_for_server` raises depends on the mirror only
through the ownership table. -/
theorem isValid_none_congr (cfg : Config) (db db' : DB) (server : String) (r : DNSRecord)
    (h : db'.zoneOwnership = db.zoneOwnership) :
    isValidRecordForServer cfg db' server r = none ↔
      isValidRecordForServer cfg db server r = none := by
  unfold isValidRecordForServer
  by_cases hA : (r.type = "A" ∨ r.type = "AAAA")
  · rw [if_pos hA, if_pos hA, getReverseZoneOwner_congr db db' h (ipAddressOf r)]
    cases getReverseZoneOwner db (ipAddressOf r) with
    | none => exact Iff.rfl
    | some o =>
      dsimp only
      by_cases ho : o = server
      · rw [if_pos ho, if_pos ho]
      · rw [if_neg ho, if_neg ho]
        simp only [isReplicated_none_iff]
  · rw [if_neg hA, if_neg hA]

theorem isReplicated_some_false_of (cfg : Config) (db : DB) (server : String) (r : DNSRecord)
    (hnn : ¬(isReplicatedRecord cfg db server r = none))
    (h : ∀ s ∈ cfg.servers, ¬(s = server) → ∀ parent,
      restAfterFirstLabel r.name = some parent →
      ∀ rec ∈ getRecords db s parent, deq rec r = false) :
    isReplicatedRecord cfg db server r = some false := by
  unfold isReplicatedRecord at hnn ⊢
  by_cases ho : cfg.servers.any (fun s => !(decide (s = server))) = true
  · rw [if_pos ho] at hnn ⊢
    cases hd : restAfterFirstLabel r.name with
    | none =>
      rw [hd] at hnn
      exact absurd rfl hnn
    | some parent =>
      dsimp only
      congr 1
      rw [List.any_eq_false]
      intro s hs
      by_cases hss : s = server
      · simp [hss]
      · have hany : (getRecords db s parent).any (fun rec => deq rec r) = false := by
          rw [List.any_eq_false]
          intro rec hrec
          rw [h s hs hss parent hd rec hrec]
          simp
        simp [hany]
  · rw [if_neg ho]

theorem isValid_false_of (cfg : Config) (db : DB) (server : String) (r : DNSRecord)
    (ip : IPAddr) (owner : String)
    (hty : r.type = "A" ∨ r.type = "AAAA")
    (hip : parseIP (ipAddressOf r) = some ip)
    (howner : getZoneOwner db (zoneOfIp ip) = some owner)
    (hne : ¬(owner = server))
    (hrep : isReplicatedRecord cfg db server r = some false) :
    isValidRecordForServer cfg db server r = some false := by
  unfold isValidRecordForServer getReverseZoneOwner ipToReverseZone
  rw [if_pos hty, hip]
  dsimp only [Option.map]
  rw [howner]
  dsimp only
  rw [if_neg hne]
  exact hrep

theorem prStep1_invalid_AA (cfg : Config) (server zone : String) (lD dD : RDict)
    (acc : St × List ClientOp) (e : RKey × DNSRecord) (ip : IPAddr)
    (hv : isValidRecordForServer cfg acc.1.db server e.2 = some false)
    (hA : e.2.type = "A" ∨ e.2.type = "AAAA")
    (hparse : parseIP (ipAddressOf e.2) = some ip) :
    prStep1 cfg server zone lD dD (.ok acc) e =
      .ok (⟨markRecordAsDeleted (markRecordAsDeleted acc.1.db server zone e.2) server (zoneOfIp ip)
          ⟨reversePointer ip, "PTR", e.2.ttl, [("ptrName", e.2.name)]⟩,
        trackChange (trackChange acc.1.changes server zone .delete) server (zoneOfIp ip)
          .delete⟩, acc.2) := by
  dsimp only [prStep1]
  rw [hv]
  dsimp only [prStep1Go]
  rw [if_pos (by decide), if_pos hA, hparse]

/-- A remote loop whose every iteration's validity check returns without
raising completes, evolving the state like `foldl_prStep1_spec` and
reaching an `Except.ok` accumulator. -/
theorem foldl_prStep1_ok_spec (cfg : Config) (server zone : String) (lD dD : RDict)
    (Q : MirrorRow → Bool) (db0 : DB) :
    ∀ l : RDict,
      (∀ e ∈ l, e.1 = recordKey e.2 ∧ notExcluded e.2.type = true ∧
        (∀ row : MirrorRow, (decide (row.server = server) && rowPure row &&
          (decide (row.lastOp = "DELETE") || decide (rowKey row = e.1))) = true →
            Q row = true) ∧
        ¬(isValidRecordForServer cfg db0 server e.2 = none)) →
      ∀ acc : St × List ClientOp, acc.1.db.zoneOwnership = db0.zoneOwnership →
        ∃ accA : St × List ClientOp,
          l.foldl (prStep1 cfg server zone lD dD) (.ok acc) = .ok accA ∧
          Evolves Q acc.1 accA.1 ∧
          ∃ newOps, accA.2 = acc.2 ++ newOps ∧
            newOps.all (fun op => opTypePure op && isDelOp op) = true := by
  intro l
  induction l with
  | nil => exact fun _ acc _ => ⟨acc, rfl, evolves_rfl _ _, ⟨[], by simp, rfl⟩⟩
  | cons e rest ih =>
    intro hl acc hown
    obtain ⟨hkey, hpure, himp, hnn⟩ := hl e (List.mem_cons_self _ _)
    cases hv : isValidRecordForServer cfg acc.1.db server e.2 with
    | none =>
      exact absurd ((isValid_none_congr cfg db0 acc.1.db server e.2 hown).mp hv) hnn
    | some valid =>
      have hstep : prStep1 cfg server zone lD dD (.ok acc) e
          = .ok (prStep1Go server zone lD dD valid acc e) := by
        dsimp only [prStep1]
        rw [hv]
      obtain ⟨hev, no1, hops1, hall1⟩ := prStep1Go_spec server zone lD dD valid acc e hkey hpure
      have hown' : (prStep1Go server zone lD dD valid acc e).1.db.zoneOwnership
          = db0.zoneOwnership := by
        rw [hev.1]
        exact hown
      obtain ⟨accA, hfold, hev2, no2, hops2, hall2⟩ :=
        ih (fun e' he' => hl e' (List.mem_cons_of_mem _ he'))
          (prStep1Go server zone lD dD valid acc e) hown'
      refine ⟨accA, ?_, evolves_trans (evolves_mono himp hev) hev2, no1 ++ no2, ?_, ?_⟩
      · rw [List.foldl_cons, hstep]
        exact hfold
      · rw [hops2, hops1, List.append_assoc]
      · rw [List.all_append, hall1, hall2]; rfl

theorem step_pred_imp (server : String) (k kr : RKey) (hk : ¬(k = kr)) :
    ∀ row : MirrorRow, (decide (row.server = server) && rowPure row &&
      (decide (row.lastOp = "DELETE") || decide (rowKey row = k))) = true →
      (decide (row.server = server) && rowPure row &&
        (decide (row.lastOp = "DELETE") || !(decide (rowKey row = kr)))) = true := by
  intro row h
  simp only [Bool.and_eq_true, Bool.or_eq_true, Bool.not_eq_true', decide_eq_true_eq,
    decide_eq_false_iff_not] at h ⊢
  refine ⟨h.1, ?_⟩
  rcases h.2 with h2 | h2
  · exact Or.inl h2
  · right; rw [h2]; exact hk

theorem del_pred_imp (server : String) (kr : RKey) :
    ∀ row : MirrorRow, (decide (row.server = server) && rowPure row &&
      decide (row.lastOp = "DELETE")) = true →
      (decide (row.server = server) && rowPure row &&
        (decide (row.lastOp = "DELETE") || !(decide (rowKey row = kr)))) = true := by
  intro row h
  simp only [Bool.and_eq_true, Bool.or_eq_true, Bool.not_eq_true', decide_eq_true_eq,
    decide_eq_false_iff_not] at h ⊢
  exact ⟨h.1, Or.inl h.2⟩

theorem keys_split_not_mem (A B : RDict) (kr : RKey) (r : DNSRecord)
    (hnd : (((A ++ (kr, r) :: B)).map (·.1)).Nodup) :
    (∀ e ∈ A, ¬(e.1 = kr)) ∧ (∀ e ∈ B, ¬(e.1 = kr)) := by
  rw [List.map_append, List.map_cons] at hnd
  have hmid := List.nodup_middle.mp hnd
  have hnotmem := (List.nodup_cons.mp hmid).1
  constructor
  · intro e he hek
    exact hnotmem (List.mem_append.mpr (Or.inl (List.mem_map.mpr ⟨e, he, hek⟩)))
  · intro e he hek
    exact hnotmem (List.mem_append.mpr (Or.inr (List.mem_map.mpr ⟨e, he, hek⟩)))

/-! ## Lemmas for shared-mode target computation (C8) -/

theorem rdMember_eq_keys_any (d : RDict) (k : RKey) :
    rdMember d k = (d.map (·.1)).any (fun k' => decide (k' = k)) := by
  rw [Bool.eq_iff_iff]
  constructor
  · intro h
    rw [List.any_eq_true]
    exact ⟨k, (alookup_isSome_iff_mem_keys d k).mp h, by simp⟩
  · intro h
    rw [List.any_eq_true] at h
    obtain ⟨k', hk', he⟩ := h
    simp only [decide_eq_true_eq] at he
    exact (alookup_isSome_iff_mem_keys d k).mpr (he ▸ hk')

theorem garz_fold_spec :
    ∀ (l : List DNSRecord) (acc : RDict),
      (∀ r ∈ l, notExcluded r.type = true) →
      (l.foldl garzInner acc).map (·.2) = acc.map (·.2) ++ specDedupByKey (acc.map (·.1)) l ∧
      (l.foldl garzInner acc).map (·.1)
        = acc.map (·.1) ++ (specDedupByKey (acc.map (·.1)) l).map recordKey := by
  intro l
  induction l with
  | nil => intro acc _; simp [specDedupByKey]
  | cons r rest ih =>
    intro acc hl
    have hp := hl r (List.mem_cons_self _ _)
    have hrest := fun r' hr' => hl r' (List.mem_cons_of_mem _ hr')
    have hseen : (acc.map (·.1)).any (fun k => decide (k = recordKey r))
        = rdMember acc (recordKey r) := (rdMember_eq_keys_any acc (recordKey r)).symm
    simp only [List.foldl_cons, specDedupByKey]
    dsimp only [garzInner]
    rw [if_pos (by simp [hp])]
    by_cases hm : rdMember acc (recordKey r) = true
    · rw [if_pos hm, if_pos (by rw [hseen]; exact hm)]
      exact ih acc hrest
    · rw [if_neg hm, if_neg (by rw [hseen]; exact hm)]
      obtain ⟨ih1, ih2⟩ := ih (acc ++ [(recordKey r, r)]) hrest
      constructor
      · rw [ih1]
        simp [List.map_append]
      · rw [ih2]
        simp [List.map_append]

theorem foldl_servers_flatMap (db : DB) (zone : String) :
    ∀ (servers : List String) (acc : RDict),
      servers.foldl (fun d s => (getRecords db s zone).foldl garzInner d) acc
        = (servers.flatMap (fun s => getRecords db s zone)).foldl garzInner acc := by
  intro servers
  induction servers with
  | nil => intro acc; rfl
  | cons s rest ih =>
    intro acc
    rw [List.foldl_cons, ih, List.flatMap_cons, List.foldl_append]

theorem getRecords_pure (db : DB) (h : db.dnsRecords.all rowPure = true) (s z : String) :
    ∀ r ∈ getRecords db s z, notExcluded r.type = true := by
  intro r hr
  obtain ⟨row, hrow, _, _, hrec⟩ := mem_getRecords db s z r hr
  rw [← hrec]
  exact (List.all_eq_true.mp h) row hrow

theorem getAllRecordsForZone_eq_spec (cfg : Config) (db : DB) (zone : String)
    (h : db.dnsRecords.all rowPure = true) :
    getAllRecordsForZone cfg db zone = specSharedTarget cfg db zone := by
  unfold getAllRecordsForZone specSharedTarget
  rw [foldl_servers_flatMap]
  have hpure : ∀ r ∈ cfg.servers.flatMap (fun s => getRecords db s zone),
      notExcluded r.type = true := by
    intro r hr
    rw [List.mem_flatMap] at hr
    obtain ⟨s, _, hrs⟩ := hr
    exact getRecords_pure db h s zone r hrs
  have hmain := (garz_fold_spec (cfg.servers.flatMap (fun s => getRecords db s zone)) [] hpure).1
  simpa using hmain

theorem flatMap_congr {α β : Type} (l : List α) (f g : α → List β)
    (h : ∀ x ∈ l, f x = g x) : l.flatMap f = l.flatMap g := by
  induction l with
  | nil => rfl
  | cons x rest ih =>
    rw [List.flatMap_cons, List.flatMap_cons, h x (List.mem_cons_self _ _),
      ih (fun y hy => h y (List.mem_cons_of_mem _ hy))]

theorem jsonSorted_congr {a b : Rdata} (h : canonRdata a = canonRdata b) :
    jsonSorted a = jsonSorted b := by
  unfold jsonSorted
  rw [h]

/-! ## Claim theorems -/

/-- Claim C1: the spec states that `(server, zone, name, type)` is an upsert
identity and at most one mirror row per identity can exist.  The code is a
slip: `dns_records` declares only the integer primary key and no UNIQUE
constraint over the identity (unlike `zone_ownership` and `zone_sync`), so
`INSERT OR REPLACE` never finds a conflicting row and `add_or_update_record`
always appends: two calls with the same identity leave two rows, and every
call grows the table by exactly one row. -/
theorem C1_add_or_update_duplicates_identity :
    identityCount
      (addOrUpdateRecord (addOrUpdateRecord emptyDB "A" "example.com" recW) "A" "example.com" recW)
      "A" "example.com" "www" "A" = 2 ∧
    ∀ (db : DB) (s z : String) (r : DNSRecord),
      ((addOrUpdateRecord db s z r).dnsRecords).length = db.dnsRecords.length + 1 := by
  refine ⟨by decide, ?_⟩
  intro db s z r
  simp [addOrUpdateRecord]

/-- Claim C2 counterexample: `record_key` applies no name canonicalization.
For a record named `www.example.com` matched against zone `example.com`, the
spec's key strips the `.example.com` suffix, but the code's key keeps the
name verbatim. -/
theorem C2_no_canonicalization_counterexample :
    recordKey recFq ≠ specRecordKey "example.com" recFq := by decide

/-- Claim C2 (amended): the record key is `(name, type, sorted-keys JSON of
rdata)` with the name used verbatim (no `.<zone>` stripping, no `"@"`
mapping); TTL is not part of the key and the rdata enters only up to dict
equality. -/
theorem C2_record_key_shape (r r' : DNSRecord) (h1 : r.name = r'.name)
    (h2 : r.type = r'.type) (h3 : canonRdata r.rdata = canonRdata r'.rdata) :
    recordKey r = recordKey r' ∧ (recordKey r).1 = r.name ∧ (recordKey r).2.1 = r.type := by
  refine ⟨?_, rfl, rfl⟩
  unfold recordKey jsonSorted
  rw [h1, h2, h3]

/-- Witness for C2_record_key_shape at two concrete records that differ in
ttl and in rdata key order. -/
theorem C2_record_key_shape_witness :
    (rKeyA.name = rKeyB.name ∧ rKeyA.type = rKeyB.type ∧
      canonRdata rKeyA.rdata = canonRdata rKeyB.rdata) ∧
    (recordKey rKeyA = recordKey rKeyB ∧ (recordKey rKeyA).1 = rKeyA.name ∧
      (recordKey rKeyA).2.1 = rKeyA.type) :=
  ⟨⟨rfl, rfl, by decide⟩, C2_record_key_shape rKeyA rKeyB rfl rfl (by decide)⟩

/-- Claim C3 counterexample: two records with the same key whose TTLs differ
by 150 < 300 are *not* considered equal (`DNSRecord.__eq__` compares TTL
exactly; there is no TTL threshold anywhere in the code), and propagation
*does* issue an update call for the pair. -/
theorem C3_ttl_threshold_counterexample :
    deq recFq recFq150 = false ∧
    (updateServerRecords "B" "example.com" none [recFq] [recFq150] stEmpty).2 =
      [ClientOp.updRec "B" "example.com" "www.example.com" "A"
        [("ipAddress", "1.2.3.4")] [("ipAddress", "1.2.3.4")]] := by
  exact ⟨by decide, by decide⟩

/-- Claim C4 counterexample: ownership is reassigned automatically.
With `0.0.10.in-addr.arpa` owned by `A`, one `sync_dhcp_scopes` pass on
server `B` whose DHCP scope derives the same reverse zone rewrites the owner
to `B` (`set_zone_owner` is INSERT OR REPLACE against `zone UNIQUE`). -/
theorem C4_ownership_reassigned_counterexample :
    getZoneOwner stOwnA.db "0.0.10.in-addr.arpa" = some "A" ∧
    getZoneOwner ((syncDhcpScopes cfgAB "B" [("10.0.0.0", "255.255.255.0")]
      (fun _ => []) (fun _ _ => some []) stOwnA).1).db "0.0.10.in-addr.arpa" = some "B" := by
  exact ⟨by decide, by decide⟩

/-- Claim C5 counterexample: ingesting a single brand-new remote record
(neither tombstoned nor mirrored) increments the per-(server, zone) `add`
counter to 1 — the code calls `track_change` on the pure-observation branch,
so the counters are not unchanged. -/
theorem C5_new_record_is_tracked_counterexample :
    getCounts ((processRecords cfgAB "A" "example.com" [recW] [] [] stEmpty).1).changes
      "A" "example.com" = ⟨1, 0, 0⟩ := by decide

/-- Claim C6: `sync_zone` never performs `update_zone_sync` — the zone_sync
table is identical after any `sync_zone` run (successful or failed), so the
last_synced timestamp for (zone, server) is never advanced.  The claim (and
spec) say it is advanced on success; the dead `update_zone_sync` /
`get_zone_sync` machinery and the zone_sync table created at startup show
the intent, making this a code bug. -/
theorem C6_sync_zone_never_advances_zone_sync :
    ∀ (cfg : Config) (server zone : String) (resp : Option (List DNSRecord)) (st : St),
      ((syncZone cfg server zone resp st).1).db.zoneSync = st.db.zoneSync := by
  intro cfg server zone resp st
  exact ((syncZone_spec cfg server zone resp st).1).2.1

/-- Claim C7: excluded-type purity.  `process_records` issues upstream calls
only with non-excluded types and appends only non-excluded mirror rows;
`update_server_records` issues only non-excluded calls and never writes the
mirror at all; `sync_dhcp_scopes` (which ingests derived reverse zones)
likewise issues only non-excluded record calls and appends only non-excluded
rows. -/
theorem C7_excluded_type_purity :
    (∀ (cfg : Config) (server zone : String) (remote localR deletedR : List DNSRecord) (st : St),
      (processRecords cfg server zone remote localR deletedR st).2.all opTypePure = true ∧
      ∃ Δ, ((processRecords cfg server zone remote localR deletedR st).1).db.dnsRecords
          = st.db.dnsRecords ++ Δ ∧ Δ.all rowPure = true) ∧
    (∀ (server zone : String) (ow : Option String) (target current : List DNSRecord) (st : St),
      (updateServerRecords server zone ow target current st).2.all opTypePure = true ∧
      ((updateServerRecords server zone ow target current st).1).db = st.db) ∧
    (∀ (cfg : Config) (server : String) (scopes : List (String × String))
        (zonesOf : String → List String) (fetch : String → String → Option (List DNSRecord))
        (st : St),
      (syncDhcpScopes cfg server scopes zonesOf fetch st).2.all opTypePure = true ∧
      ∃ Δ, ((syncDhcpScopes cfg server scopes zonesOf fetch st).1).db.dnsRecords
          = st.db.dnsRecords ++ Δ ∧ Δ.all rowPure = true) := by
  refine ⟨?_, ?_, ?_⟩
  · intro cfg server zone remote localR deletedR st
    obtain ⟨⟨_, _, ⟨Δ, hΔ, hall⟩, _⟩, hops⟩ := processRecords_spec cfg server zone remote localR deletedR st
    refine ⟨all_imp _ _ _ (fun op h => band_left h) hops,
      Δ, hΔ, all_imp _ _ _ (fun row h => band_right h) hall⟩
  · intro server zone ow target current st
    obtain ⟨hdb, _, ops1, ops2, heq, h1, h2⟩ := updateServerRecords_spec server zone ow target current st
    refine ⟨?_, hdb⟩
    rw [heq, List.all_append]
    rw [all_imp _ _ _ (fun op h => band_left h) h1,
      all_imp _ _ _ (fun op h => band_left h) h2]
    rfl
  · intro cfg server scopes zonesOf fetch st
    obtain ⟨⟨_, _, ⟨Δ, hΔ, hall⟩, _⟩, hops⟩ := syncDhcpScopes_spec cfg server scopes zonesOf fetch st
    exact ⟨hops, Δ, hΔ, all_imp _ _ _ (fun row h => band_right h) hall⟩

/-- Claim C3 (amended): there is no TTL threshold.  `DNSRecord.__eq__`
requires exact TTL equality, so two records with matching keys and different
TTLs (by any amount, in particular less than 300 s) are unequal and
propagation issues an update call carrying the current rdata as old data. -/
theorem C3_pure_ttl_change_updates (server zone : String) (ow : Option String)
    (a b : DNSRecord) (st : St)
    (hpure : notExcluded a.type = true)
    (hname : a.name = b.name) (hty : a.type = b.type)
    (hrd : canonRdata a.rdata = canonRdata b.rdata) (httl : a.ttl ≠ b.ttl)
    (hdel : getDeletedRecords st.db server zone = [])
    (hro : getReverseZoneOwner st.db (ipAddressOf a) = none) :
    deq a b = false ∧
    (updateServerRecords server zone ow [a] [b] st).2 =
      [ClientOp.updRec server zone a.name a.type b.rdata a.rdata] := by
  have hpb : notExcluded b.type = true := hty ▸ hpure
  have hkey : recordKey a = recordKey b := by
    unfold recordKey jsonSorted
    rw [hname, hty, hrd]
  have hdeq : deq a b = false := by simp [deq, httl]
  refine ⟨hdeq, ?_⟩
  simp only [updateServerRecords]
  rw [hdel, mkRDict_nil, mkRDict_singleton a hpure, mkRDict_singleton b hpb]
  simp only [List.foldl_cons, List.foldl_nil]
  rw [usrDelStep_skip server zone [(recordKey a, a)] [] (st, []) (recordKey b, b)
    (by simp [rdMember, alookup, hkey]) rfl]
  rw [usrAddStep_update server zone [(recordKey b, b)] [] (st, []) (recordKey a, a) b rfl
    (by simp [alookup, hkey]) hdeq hro]
  rfl

/-- Witness for C3_pure_ttl_change_updates: same record at TTL 300 and 150
(drift 150 < 300) produces exactly one update call. -/
theorem C3_pure_ttl_change_updates_witness :
    (notExcluded recFq.type = true ∧ recFq.name = recFq150.name ∧ recFq.type = recFq150.type ∧
      canonRdata recFq.rdata = canonRdata recFq150.rdata ∧ recFq.ttl ≠ recFq150.ttl ∧
      getDeletedRecords stEmpty.db "B" "example.com" = [] ∧
      getReverseZoneOwner stEmpty.db (ipAddressOf recFq) = none) ∧
    (deq recFq recFq150 = false ∧
      (updateServerRecords "B" "example.com" none [recFq] [recFq150] stEmpty).2 =
        [ClientOp.updRec "B" "example.com" recFq.name recFq.type recFq150.rdata recFq.rdata]) :=
  ⟨⟨by decide, rfl, rfl, by decide, by decide, rfl, by decide⟩,
   C3_pure_ttl_change_updates "B" "example.com" none recFq recFq150 stEmpty
     (by decide) rfl rfl (by decide) (by decide) rfl (by decide)⟩

/-- Claim C5 (amended): the pure-observation branches of `process_records`
do write the change tracker.  A brand-new valid remote record is upserted
into the mirror and counted as an `add`; a changed existing record is
upserted and counted as an `update`; neither branch issues an upstream
call. -/
theorem C5_observation_branches_are_tracked :
    (∀ (cfg : Config) (server zone : String) (r : DNSRecord) (st : St),
      notExcluded r.type = true →
      isValidRecordForServer cfg st.db server r = some true →
      (processRecords cfg server zone [r] [] [] st).1.db.dnsRecords =
        st.db.dnsRecords ++ [⟨freshId (st.db.dnsRecords.map (·.id)), server, zone,
          r.name, r.type, r.ttl, r.rdata, "ADD"⟩] ∧
      getCounts ((processRecords cfg server zone [r] [] [] st).1).changes server zone =
        bump (getCounts st.changes server zone) .add ∧
      (processRecords cfg server zone [r] [] [] st).2 = []) ∧
    (∀ (cfg : Config) (server zone : String) (r l : DNSRecord) (st : St),
      notExcluded r.type = true → notExcluded l.type = true →
      isValidRecordForServer cfg st.db server r = some true →
      recordKey l = recordKey r → deq r l = false →
      (processRecords cfg server zone [r] [l] [] st).1.db.dnsRecords =
        st.db.dnsRecords ++ [⟨freshId (st.db.dnsRecords.map (·.id)), server, zone,
          r.name, r.type, r.ttl, r.rdata, "ADD"⟩] ∧
      getCounts ((processRecords cfg server zone [r] [l] [] st).1).changes server zone =
        bump (getCounts st.changes server zone) .update ∧
      (processRecords cfg server zone [r] [l] [] st).2 = []) := by
  constructor
  · intro cfg server zone r st hp hv
    have hred : processRecords cfg server zone [r] [] [] st =
        (⟨addOrUpdateRecord st.db server zone r, trackChange st.changes server zone .add⟩, []) := by
      simp only [processRecords, List.filter_nil]
      rw [mkRDict_singleton r hp, mkRDict_nil]
      simp only [List.foldl_cons, List.foldl_nil]
      rw [prStep1_new cfg server zone [] [] (st, []) (recordKey r, r) hv rfl rfl]
    rw [hred]
    exact ⟨rfl, getCounts_trackChange_self _ _ _ _, rfl⟩
  · intro cfg server zone r l st hp hpl hv hkl hdeq
    have hred : processRecords cfg server zone [r] [l] [] st =
        (⟨addOrUpdateRecord st.db server zone r, trackChange st.changes server zone .update⟩, []) := by
      simp only [processRecords]
      rw [mkRDict_singleton r hp, mkRDict_singleton l hpl, mkRDict_nil]
      simp only [List.foldl_cons, List.foldl_nil]
      rw [prStep1_changed cfg server zone [(recordKey l, l)] [] (st, []) (recordKey r, r) l hv rfl
        (by simp [alookup, hkl]) hdeq]
      show (prStep2 server zone [(recordKey r, r)] []
        (⟨addOrUpdateRecord st.db server zone r,
          trackChange st.changes server zone ChangeType.update⟩ : St) (recordKey l, l),
        ([] : List ClientOp)) = _
      rw [prStep2_skip server zone [(recordKey r, r)] [] _ (recordKey l, l)
        (by simp [rdMember, alookup, hkl])]
    rw [hred]
    exact ⟨rfl, getCounts_trackChange_self _ _ _ _, rfl⟩

/-- Witness for C5_observation_branches_are_tracked: a new A record on an
empty mirror is tracked as an add; a TTL-changed copy of a mirrored record
is tracked as an update. -/
theorem C5_observation_branches_are_tracked_witness :
    (notExcluded recW.type = true ∧
      isValidRecordForServer cfgAB stEmpty.db "A" recW = some true ∧
      getCounts ((processRecords cfgAB "A" "example.com" [recW] [] [] stEmpty).1).changes
        "A" "example.com" = bump (getCounts stEmpty.changes "A" "example.com") .add) ∧
    (notExcluded recFq.type = true ∧ notExcluded recFq150.type = true ∧
      recordKey recFq150 = recordKey recFq ∧ deq recFq recFq150 = false ∧
      getCounts ((processRecords cfgAB "A" "example.com" [recFq] [recFq150] [] stEmpty).1).changes
        "A" "example.com" = bump (getCounts stEmpty.changes "A" "example.com") .update) :=
  ⟨⟨by decide, by decide,
    (C5_observation_branches_are_tracked.1 cfgAB "A" "example.com" recW stEmpty
      (by decide) (by decide)).2.1⟩,
   ⟨by decide, by decide, by decide, by decide,
    (C5_observation_branches_are_tracked.2 cfgAB "A" "example.com" recFq recFq150 stEmpty
      (by decide) (by decide) (by decide) (by decide) (by decide)).2.1⟩⟩

/-- Claim C4 (amended): zone ownership is an upsert, not create-once.
`set_zone_owner` replaces the owner of its zone (leaving other zones alone),
and `sync_dhcp_scopes` on server S can therefore reassign an existing
ownership row — last writer wins, and the new owner is always the
scope-hosting server.  An ownership row is never removed: once a zone has an
owner it keeps some owner through any `sync_dhcp_scopes` run. -/
theorem C4_ownership_upsert_semantics :
    (∀ (db : DB) (z o : String), getZoneOwner (setZoneOwner db z o) z = some o ∧
      ∀ z', z' ≠ z → getZoneOwner (setZoneOwner db z o) z' = getZoneOwner db z') ∧
    (∀ (cfg : Config) (server : String) (scopes : List (String × String))
        (zonesOf : String → List String) (fetch : String → String → Option (List DNSRecord))
        (st : St) (z : String),
      (getZoneOwner st.db z).isSome = true →
      (getZoneOwner ((syncDhcpScopes cfg server scopes zonesOf fetch st).1).db z).isSome = true) ∧
    (∀ (cfg : Config) (server : String) (scopes : List (String × String))
        (zonesOf : String → List String) (fetch : String → String → Option (List DNSRecord))
        (st : St) (z o' : String),
      getZoneOwner ((syncDhcpScopes cfg server scopes zonesOf fetch st).1).db z = some o' →
      getZoneOwner st.db z = some o' ∨ o' = server) := by
  refine ⟨?_, ?_, ?_⟩
  · intro db z o
    exact ⟨getZoneOwner_setZoneOwner_self db z o,
      fun z' h => getZoneOwner_setZoneOwner_ne db z o z' h⟩
  · intro cfg server scopes zonesOf fetch st z h
    exact ((syncDhcpScopes_spec cfg server scopes zonesOf fetch st).1).1 z h
  · intro cfg server scopes zonesOf fetch st z o' h
    exact ((syncDhcpScopes_spec cfg server scopes zonesOf fetch st).1).2.1 z o' h

/-- Witness for C4_ownership_upsert_semantics at the reassignment scenario of
the counterexample: server B takes over A's reverse zone, and the zone still
has an owner afterwards. -/
theorem C4_ownership_upsert_semantics_witness :
    (getZoneOwner (setZoneOwner emptyDB "0.0.10.in-addr.arpa" "A") "0.0.10.in-addr.arpa"
        = some "A" ∧
      ("example.com" ≠ "0.0.10.in-addr.arpa" ∧
        getZoneOwner (setZoneOwner emptyDB "0.0.10.in-addr.arpa" "A") "example.com"
          = getZoneOwner emptyDB "example.com")) ∧
    ((getZoneOwner stOwnA.db "0.0.10.in-addr.arpa").isSome = true ∧
      (getZoneOwner ((syncDhcpScopes cfgAB "B" [("10.0.0.0", "255.255.255.0")]
        (fun _ => []) (fun _ _ => some []) stOwnA).1).db "0.0.10.in-addr.arpa").isSome = true) ∧
    (getZoneOwner ((syncDhcpScopes cfgAB "B" [("10.0.0.0", "255.255.255.0")]
        (fun _ => []) (fun _ _ => some []) stOwnA).1).db "0.0.10.in-addr.arpa" = some "B" ∧
      (getZoneOwner stOwnA.db "0.0.10.in-addr.arpa" = some "B" ∨ ("B" : String) = "B")) :=
  ⟨⟨(C4_ownership_upsert_semantics.1 emptyDB "0.0.10.in-addr.arpa" "A").1,
    by decide,
    (C4_ownership_upsert_semantics.1 emptyDB "0.0.10.in-addr.arpa" "A").2 "example.com"
      (by decide)⟩,
   ⟨by decide,
    C4_ownership_upsert_semantics.2.1 cfgAB "B" [("10.0.0.0", "255.255.255.0")]
      (fun _ => []) (fun _ _ => some []) stOwnA "0.0.10.in-addr.arpa" (by decide)⟩,
   ⟨by decide,
    C4_ownership_upsert_semantics.2.2 cfgAB "B" [("10.0.0.0", "255.255.255.0")]
      (fun _ => []) (fun _ _ => some []) stOwnA "0.0.10.in-addr.arpa" "B" (by decide)⟩⟩

/-- Claim C8: per-zone propagation targets.  For every non-internal observed
zone, an owned zone pushes the owner's non-tombstoned mirror rows to every
configured server except the owner, and an unowned zone pushes the union of
all servers' non-tombstoned rows — deduplicated by record key, first
occurrence in server-configuration order winning — to every configured
server.  (Stated for mirrors without excluded-type rows, which is every
mirror this code ever produces, by C7; the code additionally filters
excluded types while building the shared union.) -/
theorem C8_propagation_call_targets (cfg : Config) (db : DB)
    (h : db.dnsRecords.all rowPure = true) :
    propagateCalls cfg db = specPropagateCalls cfg db := by
  unfold propagateCalls specPropagateCalls
  apply flatMap_congr
  intro z _
  by_cases hi : isInternalZone z = true
  · rw [if_pos hi, if_pos hi]
  · rw [if_neg hi, if_neg hi]
    cases ho : getZoneOwner db z with
    | some o => rfl
    | none => rw [getAllRecordsForZone_eq_spec cfg db z h]

/-- Witness for C8_propagation_call_targets on a mirror with a shared zone
(duplicated record key across servers) and an owned zone with a tombstone. -/
theorem C8_propagation_call_targets_witness :
    dbShared.dnsRecords.all rowPure = true ∧
    propagateCalls cfgAB dbShared = specPropagateCalls cfgAB dbShared :=
  ⟨by decide, C8_propagation_call_targets cfgAB dbShared (by decide)⟩

/-- Claim C9: within one `update_server_records` invocation every delete call
precedes every add call — the delete loop runs to completion before the
add/update loop starts, and the add/update loop issues no deletes. -/
theorem C9_deletes_precede_adds :
    ∀ (server zone : String) (ow : Option String) (target current : List DNSRecord) (st : St),
      delsPrecedeAdds ((updateServerRecords server zone ow target current st).2) = true := by
  intro server zone ow target current st
  obtain ⟨_, _, ops1, ops2, heq, h1, h2⟩ := updateServerRecords_spec server zone ow target current st
  rw [heq]
  exact delsPrecedeAdds_append ops1 ops2
    (all_imp _ _ _ (fun op h => band_right h) h1)
    (all_imp _ _ _ (fun op h => band_right h) h2)

/-- Claim C10 (amended): during ingest on server S, a remote A/AAAA record
whose address lies in a reverse zone owned by a different server, with no
equal record (same name, type, ttl, rdata as dicts) present non-tombstoned
in any other server's mirror, is rejected — provided no record in the
listing makes `is_replicated_record` raise IndexError (a record reaches that
check with a dotless name while another server is configured; the raise
aborts the zone ingest, see the counterexample).  Rejection means: the
record is tombstoned in the mirror together with a PTR tombstone in the
address's reverse zone, the (S, zone) delete counter grows, and no mirror
row carrying its (name, type, rdata) identity is created with
last_operation ADD.  (The record is assumed to carry its key uniquely in
the remote listing — duplicate-keyed listings collapse to the last entry in
the keyed dictionary.) -/
theorem C10_foreign_owned_address_record_rejected
    (cfg : Config) (server zone : String) (remote localR deletedR : List DNSRecord) (st : St)
    (r : DNSRecord) (ip : IPAddr) (owner : String)
    (hr : r ∈ remote)
    (huniq : ∀ r' ∈ remote, recordKey r' = recordKey r → r' = r)
    (hnn : ∀ r' ∈ remote, ¬(isValidRecordForServer cfg st.db server r' = none))
    (hty : r.type = "A" ∨ r.type = "AAAA")
    (hip : parseIP (ipAddressOf r) = some ip)
    (howner : getZoneOwner st.db (zoneOfIp ip) = some owner)
    (hne : ¬(owner = server))
    (hnorep : ∀ row ∈ st.db.dnsRecords, ¬(row.server = server) → ¬(row.lastOp = "DELETE") →
      deq (rowToRecord row) r = false) :
    (∃ row ∈ ((processRecords cfg server zone remote localR deletedR st).1).db.dnsRecords,
      row.server = server ∧ row.zone = zone ∧ row.name = r.name ∧ row.ty = r.type ∧
      row.ttl = r.ttl ∧ row.rdata = r.rdata ∧ row.lastOp = "DELETE") ∧
    (∃ row ∈ ((processRecords cfg server zone remote localR deletedR st).1).db.dnsRecords,
      row.server = server ∧ row.zone = zoneOfIp ip ∧ row.name = reversePointer ip ∧
      row.ty = "PTR" ∧ row.ttl = r.ttl ∧ row.rdata = [("ptrName", r.name)] ∧
      row.lastOp = "DELETE") ∧
    (getCounts ((processRecords cfg server zone remote localR deletedR st).1).changes
        server zone).deletes ≥ (getCounts st.changes server zone).deletes + 1 ∧
    (∀ row ∈ ((processRecords cfg server zone remote localR deletedR st).1).db.dnsRecords,
      row ∉ st.db.dnsRecords →
      ¬(row.lastOp = "ADD" ∧ row.name = r.name ∧ row.ty = r.type ∧
        canonRdata row.rdata = canonRdata r.rdata)) := by
  have hpure : notExcluded r.type = true := by
    rcases hty with h | h <;> rw [h] <;> decide
  -- the remote keyed dictionary contains exactly one entry for r's key, r itself
  have hmem_pairs : (recordKey r, r) ∈
      (remote.filter (fun x => notExcluded x.type)).map (fun x => (recordKey x, x)) :=
    List.mem_map.mpr ⟨r, List.mem_filter.mpr ⟨hr, hpure⟩, rfl⟩
  have huniq_pairs : ∀ v', (recordKey r, v') ∈
      (remote.filter (fun x => notExcluded x.type)).map (fun x => (recordKey x, x)) → v' = r := by
    intro v' hv'
    rw [List.mem_map] at hv'
    obtain ⟨x, hx, hxe⟩ := hv'
    have hx1 : recordKey x = recordKey r := congrArg Prod.fst hxe
    have hx2 : x = v' := congrArg Prod.snd hxe
    rw [← hx2]
    exact huniq x (List.mem_filter.mp hx).1 hx1
  have halk : alookup (mkRDict (remote.filter (fun x => notExcluded x.type))) (recordKey r)
      = some r :=
    alookup_mkDict_of_unique _ _ _ hmem_pairs huniq_pairs
  have hmemD : (recordKey r, r) ∈ mkRDict (remote.filter (fun x => notExcluded x.type)) :=
    mem_of_alookup_some _ _ _ halk
  obtain ⟨A, B, hsplit⟩ := List.append_of_mem hmemD
  have hnd : ((mkRDict (remote.filter (fun x => notExcluded x.type))).map (·.1)).Nodup :=
    keys_nodup_mkDict _
  rw [hsplit] at hnd
  obtain ⟨hA_ne, hB_ne⟩ := keys_split_not_mem A B (recordKey r) r hnd
  have hentry : ∀ e ∈ mkRDict (remote.filter (fun x => notExcluded x.type)),
      e.1 = recordKey e.2 ∧ notExcluded e.2.type = true :=
    fun e he => ⟨mkRDict_wellKeyed _ e he, mkRDict_pure _
      (fun x hx => (List.mem_filter.mp hx).2) e he⟩
  have hmem_remote : ∀ e ∈ mkRDict (remote.filter (fun x => notExcluded x.type)),
      e.2 ∈ remote := by
    intro e he
    have hm := mem_mkDict _ _ he
    rw [List.mem_map] at hm
    obtain ⟨x, hx, hxe⟩ := hm
    have hx2 : x = e.2 := congrArg Prod.snd hxe
    rw [← hx2]
    exact (List.mem_filter.mp hx).1
  -- the key-avoiding row predicate threaded through the whole run
  have hlA : ∀ e ∈ A, e.1 = recordKey e.2 ∧ notExcluded e.2.type = true ∧
      (∀ row : MirrorRow, (decide (row.server = server) && rowPure row &&
        (decide (row.lastOp = "DELETE") || decide (rowKey row = e.1))) = true →
        (decide (row.server = server) && rowPure row &&
          (decide (row.lastOp = "DELETE") || !(decide (rowKey row = recordKey r)))) = true) ∧
      ¬(isValidRecordForServer cfg st.db server e.2 = none) := by
    intro e he
    have hm : e ∈ mkRDict (remote.filter (fun x => notExcluded x.type)) := by
      rw [hsplit]; exact List.mem_append.mpr (Or.inl he)
    exact ⟨(hentry e hm).1, (hentry e hm).2, step_pred_imp server e.1 (recordKey r) (hA_ne e he),
      hnn e.2 (hmem_remote e hm)⟩
  have hlB : ∀ e ∈ B, e.1 = recordKey e.2 ∧ notExcluded e.2.type = true ∧
      (∀ row : MirrorRow, (decide (row.server = server) && rowPure row &&
        (decide (row.lastOp = "DELETE") || decide (rowKey row = e.1))) = true →
        (decide (row.server = server) && rowPure row &&
          (decide (row.lastOp = "DELETE") || !(decide (rowKey row = recordKey r)))) = true) ∧
      ¬(isValidRecordForServer cfg st.db server e.2 = none) := by
    intro e he
    have hm : e ∈ mkRDict (remote.filter (fun x => notExcluded x.type)) := by
      rw [hsplit]; exact List.mem_append.mpr (Or.inr (List.mem_cons_of_mem _ he))
    exact ⟨(hentry e hm).1, (hentry e hm).2, step_pred_imp server e.1 (recordKey r) (hB_ne e he),
      hnn e.2 (hmem_remote e hm)⟩
  have hlL : ∀ e ∈ mkRDict (localR.filter (fun x => notExcluded x.type)),
      notExcluded e.2.type = true ∧
      ∀ row : MirrorRow, (decide (row.server = server) && rowPure row &&
        decide (row.lastOp = "DELETE")) = true →
        (decide (row.server = server) && rowPure row &&
          (decide (row.lastOp = "DELETE") || !(decide (rowKey row = recordKey r)))) = true :=
    fun e he => ⟨mkRDict_pure _ (fun x hx => (List.mem_filter.mp hx).2) e he,
      del_pred_imp server (recordKey r)⟩
  -- prefix fold over A completes without raising
  obtain ⟨accA, hfoldA, hevA, noA, hopsA, hallA⟩ :=
    foldl_prStep1_ok_spec cfg server zone (mkRDict (localR.filter (fun x => notExcluded x.type)))
      (mkRDict deletedR) _ st.db A hlA (st, []) rfl
  obtain ⟨hoA, hsA, ⟨ΔA, hΔA, hallΔA⟩, htrA⟩ := hevA
  -- r's validity check in the state reached after the A prefix: some false
  have hrepnnSt : ¬(isReplicatedRecord cfg st.db server r = none) := by
    intro hc
    apply hnn r hr
    unfold isValidRecordForServer getReverseZoneOwner ipToReverseZone
    rw [if_pos hty, hip]
    dsimp only [Option.map]
    rw [howner]
    dsimp only
    rw [if_neg hne]
    exact hc
  have hrep : isReplicatedRecord cfg accA.1.db server r = some false := by
    apply isReplicated_some_false_of
    · intro hc
      apply hrepnnSt
      rw [isReplicated_none_iff] at hc ⊢
      exact hc
    · intro s hs hss parent hparent rec hrec
      have hΔother : ∀ row ∈ ΔA, ¬(row.server = s) := by
        intro row hrow
        have hq := (List.all_eq_true.mp hallΔA) row hrow
        have hsrv : row.server = server := by
          have h2 := band_left (band_left hq)
          simpa using h2
        rw [hsrv]
        exact fun hc => hss hc.symm
      rw [getRecords_append_other st.db _ ΔA hΔA s parent hΔother] at hrec
      obtain ⟨row, hrowmem, hrows, hnotdel, hrec2⟩ := mem_getRecords _ _ _ _ hrec
      rw [← hrec2]
      refine hnorep row hrowmem ?_ hnotdel
      rw [hrows]
      exact hss
  have hval : isValidRecordForServer cfg accA.1.db server r = some false := by
    refine isValid_false_of cfg _ server r ip owner hty hip ?_ hne hrep
    rw [getZoneOwner_congr st.db _ hoA]
    exact howner
  -- the middle step tombstones r and its PTR record
  have hstep := prStep1_invalid_AA cfg server zone
    (mkRDict (localR.filter (fun x => notExcluded x.type))) (mkRDict deletedR)
    accA (recordKey r, r) ip hval hty hip
  set M : St × List ClientOp :=
    (⟨markRecordAsDeleted (markRecordAsDeleted accA.1.db server zone r) server (zoneOfIp ip)
        ⟨reversePointer ip, "PTR", r.ttl, [("ptrName", r.name)]⟩,
      trackChange (trackChange accA.1.changes server zone .delete) server (zoneOfIp ip)
        .delete⟩, accA.2) with hMdef
  have hstepM : prStep1 cfg server zone
      (mkRDict (localR.filter (fun x => notExcluded x.type))) (mkRDict deletedR)
      (.ok accA) (recordKey r, r) = .ok M := by
    rw [hMdef]
    exact hstep
  have hownM : M.1.db.zoneOwnership = st.db.zoneOwnership := by
    rw [hMdef]
    show accA.1.db.zoneOwnership = st.db.zoneOwnership
    exact hoA
  -- tail fold over B completes without raising
  obtain ⟨accB, hfoldB, hevB, noB, hopsB, hallB⟩ :=
    foldl_prStep1_ok_spec cfg server zone (mkRDict (localR.filter (fun x => notExcluded x.type)))
      (mkRDict deletedR) _ st.db B hlB M hownM
  have hevL :=
    foldl_prStep2_spec server zone (mkRDict (remote.filter (fun x => notExcluded x.type)))
      (mkRDict deletedR) _ (mkRDict (localR.filter (fun x => notExcluded x.type))) hlL accB.1
  -- the output of processRecords is the composition of the three stages
  have hfoldAll : (mkRDict (remote.filter (fun x => notExcluded x.type))).foldl
      (prStep1 cfg server zone (mkRDict (localR.filter (fun x => notExcluded x.type)))
        (mkRDict deletedR)) (Except.ok (st, [])) = .ok accB := by
    rw [hsplit, List.foldl_append, List.foldl_cons, hfoldA, hstepM]
    exact hfoldB
  have hout : processRecords cfg server zone remote localR deletedR st =
      ((mkRDict (localR.filter (fun x => notExcluded x.type))).foldl
        (prStep2 server zone (mkRDict (remote.filter (fun x => notExcluded x.type)))
          (mkRDict deletedR)) accB.1, accB.2) := by
    unfold processRecords
    rw [hfoldAll]
  -- the middle state, explicitly
  have hevM : Evolves (fun row => decide (row.server = server) && rowPure row &&
      (decide (row.lastOp = "DELETE") || !(decide (rowKey row = recordKey r)))) accA.1 M.1 := by
    rw [hMdef]
    refine evolves_trans
      (evolves_mark_track _ accA.1 server zone server zone r .delete ?_)
      (evolves_mark_track _ _ server (zoneOfIp ip) server (zoneOfIp ip)
        ⟨reversePointer ip, "PTR", r.ttl, [("ptrName", r.name)]⟩ .delete ?_)
    · intro i; simp [rowPure, hpure]
    · intro i; simp [rowPure]; decide
  -- conclusion 4 needs the total evolution from st
  have hevTot : Evolves (fun row => decide (row.server = server) && rowPure row &&
      (decide (row.lastOp = "DELETE") || !(decide (rowKey row = recordKey r)))) st
      ((processRecords cfg server zone remote localR deletedR st).1) := by
    rw [hout]
    exact evolves_trans ⟨hoA, hsA, ⟨ΔA, hΔA, hallΔA⟩, htrA⟩
      (evolves_trans hevM (evolves_trans hevB hevL))
  -- conclusions 1 and 2: the two tombstones are in M and persist
  have hrowsM : M.1.db.dnsRecords =
      (accA.1.db.dnsRecords ++
        [⟨freshId (accA.1.db.dnsRecords.map (·.id)), server, zone, r.name, r.type, r.ttl,
          r.rdata, "DELETE"⟩]) ++
      [⟨freshId ((accA.1.db.dnsRecords ++
          ([⟨freshId (accA.1.db.dnsRecords.map (·.id)), server, zone, r.name, r.type, r.ttl,
            r.rdata, "DELETE"⟩] : List MirrorRow)).map (·.id)), server, zoneOfIp ip,
        reversePointer ip, "PTR", r.ttl, [("ptrName", r.name)], "DELETE"⟩] := by
    rw [hMdef]
    rfl
  obtain ⟨_, _, ⟨ΔBL, hΔBL, _⟩, htrBL⟩ := evolves_trans hevB hevL
  have hfinalRows : ((processRecords cfg server zone remote localR deletedR st).1).db.dnsRecords
      = M.1.db.dnsRecords ++ ΔBL := by
    rw [hout]
    exact hΔBL
  refine ⟨?_, ?_, ?_, ?_⟩
  · refine ⟨⟨freshId (accA.1.db.dnsRecords.map (·.id)), server, zone, r.name, r.type, r.ttl,
      r.rdata, "DELETE"⟩, ?_, rfl, rfl, rfl, rfl, rfl, rfl, rfl⟩
    rw [hfinalRows, hrowsM]
    exact List.mem_append.mpr (Or.inl (List.mem_append.mpr (Or.inl
      (List.mem_append.mpr (Or.inr (List.mem_singleton.mpr rfl))))))
  · refine ⟨⟨freshId ((accA.1.db.dnsRecords ++
        ([⟨freshId (accA.1.db.dnsRecords.map (·.id)), server, zone, r.name, r.type, r.ttl,
          r.rdata, "DELETE"⟩] : List MirrorRow)).map (·.id)), server, zoneOfIp ip,
      reversePointer ip, "PTR", r.ttl, [("ptrName", r.name)], "DELETE"⟩,
      ?_, rfl, rfl, rfl, rfl, rfl, rfl, rfl⟩
    rw [hfinalRows, hrowsM]
    exact List.mem_append.mpr (Or.inl (List.mem_append.mpr (Or.inr
      (List.mem_singleton.mpr rfl))))
  · -- delete counter: +1 at the middle step, monotone elsewhere
    have hM2 : (getCounts M.1.changes server zone).deletes ≥
        (getCounts accA.1.changes server zone).deletes + 1 := by
      rw [hMdef]
      show (getCounts (trackChange (trackChange accA.1.changes server zone .delete) server
        (zoneOfIp ip) .delete) server zone).deletes ≥ _
      have h1 : (getCounts (trackChange accA.1.changes server zone .delete) server
          zone).deletes = (getCounts accA.1.changes server zone).deletes + 1 := by
        rw [getCounts_trackChange_self]
        rfl
      have h2 := (trLe_trackChange (trackChange accA.1.changes server zone .delete) server
        (zoneOfIp ip) .delete server zone).2.2
      omega
    have hA2 : (getCounts st.changes server zone).deletes ≤
        (getCounts accA.1.changes server zone).deletes := (htrA server zone).2.2
    have hfin2 : (getCounts M.1.changes server zone).deletes ≤
        (getCounts ((processRecords cfg server zone remote localR deletedR
          st).1).changes server zone).deletes := by
      rw [hout]
      exact (htrBL server zone).2.2
    omega
  · intro row hrow hnotold
    obtain ⟨_, _, ⟨Δtot, hΔtot, hallTot⟩, _⟩ := hevTot
    rw [hΔtot] at hrow
    have hrowΔ : row ∈ Δtot := by
      rcases List.mem_append.mp hrow with h | h
      · exact absurd h hnotold
      · exact h
    have hq := (List.all_eq_true.mp hallTot) row hrowΔ
    rintro ⟨hadd, hname, htype, hcanon⟩
    have hkeyrow : rowKey row = recordKey r := by
      unfold rowKey recordKey
      rw [hname, htype, jsonSorted_congr hcanon]
    simp only [Bool.and_eq_true, Bool.or_eq_true, Bool.not_eq_true', decide_eq_true_eq,
      decide_eq_false_iff_not] at hq
    rcases hq.2 with h2 | h2
    · rw [hadd] at h2
      exact absurd h2 (by decide)
    · exact h2 hkeyrow

/-- Claim C10 counterexample (original wording): a dotless record name makes
`is_replicated_record` raise IndexError before anything is written.  Server
`B` ingests the single A record `www -> 10.0.0.5` while `0.0.10.in-addr.arpa`
is owned by `A`; no other server mirrors an equal record (the mirror has no
rows at all); the original claim demands a DELETE tombstone and a tracked
delete, but the run aborts at the name split: the mirror still has no rows
and the (B, example.com) delete counter is still 0. -/
theorem C10_dotless_name_counterexample :
    recTen.type = "A" ∧
    getZoneOwner stOwnA.db (zoneOfIp ipTen) = some "A" ∧ ¬("A" = "B") ∧
    stOwnA.db.dnsRecords = [] ∧
    ((processRecords cfgAB "B" "example.com" [recTen] [] [] stOwnA).1).db.dnsRecords = [] ∧
    (getCounts ((processRecords cfgAB "B" "example.com" [recTen] [] [] stOwnA).1).changes
      "B" "example.com").deletes = 0 :=
  ⟨rfl, by decide, by decide, rfl, by decide, by decide⟩

/-- Witness for C10 on a concrete run: server `B` ingests a single A record
`www.shared.lan -> 10.0.0.5` (a dotted name, so the replication check does
not raise) while `0.0.10.in-addr.arpa` is owned by server `A`. -/
theorem C10_foreign_owned_address_record_rejected_witness :
    recTenFq ∈ [recTenFq] ∧
    (∀ r' ∈ [recTenFq], ¬(isValidRecordForServer cfgAB stOwnA.db "B" r' = none)) ∧
    parseIP (ipAddressOf recTenFq) = some ipTen ∧
    getZoneOwner stOwnA.db (zoneOfIp ipTen) = some "A" ∧ ¬("A" = "B") ∧
    ((∃ row ∈ ((processRecords cfgAB "B" "example.com" [recTenFq] [] [] stOwnA).1).db.dnsRecords,
      row.server = "B" ∧ row.zone = "example.com" ∧ row.name = recTenFq.name ∧
      row.ty = recTenFq.type ∧ row.ttl = recTenFq.ttl ∧ row.rdata = recTenFq.rdata ∧
      row.lastOp = "DELETE") ∧
    (∃ row ∈ ((processRecords cfgAB "B" "example.com" [recTenFq] [] [] stOwnA).1).db.dnsRecords,
      row.server = "B" ∧ row.zone = zoneOfIp ipTen ∧ row.name = reversePointer ipTen ∧
      row.ty = "PTR" ∧ row.ttl = recTenFq.ttl ∧ row.rdata = [("ptrName", recTenFq.name)] ∧
      row.lastOp = "DELETE") ∧
    (getCounts ((processRecords cfgAB "B" "example.com" [recTenFq] [] [] stOwnA).1).changes
        "B" "example.com").deletes ≥ (getCounts stOwnA.changes "B" "example.com").deletes + 1 ∧
    (∀ row ∈ ((processRecords cfgAB "B" "example.com" [recTenFq] [] [] stOwnA).1).db.dnsRecords,
      row ∉ stOwnA.db.dnsRecords →
      ¬(row.lastOp = "ADD" ∧ row.name = recTenFq.name ∧ row.ty = recTenFq.type ∧
        canonRdata row.rdata = canonRdata recTenFq.rdata))) :=
  ⟨by decide, by decide, by decide, by decide, by decide,
    C10_foreign_owned_address_record_rejected cfgAB "B" "example.com" [recTenFq] [] [] stOwnA
      recTenFq ipTen "A" (by decide) (by decide) (by decide) (Or.inl rfl) (by decide)
      (by decide) (by decide) (by decide)⟩

end TechniSync
